import Mathlib

/-!
Verification development for the ValeDesk audio subsystem
(src/src-tauri/src/audio_models.rs and src/src-tauri/src/audio_dictation.rs).

The Rust code is shallowly embedded: filesystem, HTTP and process effects are
modelled by explicit environments and state passing, machine integers by Nat
with explicit saturation at 2^64 - 1 where the source uses saturating_add,
and every fallible operation by Except.  Emitted host events and filesystem
accesses are recorded in trace lists so that temporal and frame claims can be
stated.  Structured JSON "context" objects on asset-manager errors are elided
to code/message pairs; dictation events keep their context payloads because
claims inspect them.
-/

set_option maxHeartbeats 1000000

namespace ValeDesk

/-! Minimal model of serde_json values.  Numbers are modelled as integers:
no claim depends on float arithmetic, only on the presence or absence of a
numeric field. -/

inductive Json where
  | null
  | bool (b : Bool)
  | num (n : Int)
  | str (s : String)
  | arr (elems : List Json)
  | obj (fields : List (String × Json))

/-- The as_object accessor of serde_json. -/
def Json.asObj : Json → Option (List (String × Json))
  | .obj fields => some fields
  | _ => none

/-- Field lookup on a JSON object, mirroring Map::get. -/
def jget (fields : List (String × Json)) (k : String) : Option Json :=
  (fields.find? (fun p => p.fst == k)).map Prod.snd

/-- The as_str accessor of serde_json. -/
def Json.asStr : Json → Option String
  | .str s => some s
  | _ => none

/-- The as_f64 accessor of serde_json, restricted to the integer model. -/
def Json.asNum : Json → Option Int
  | .num n => some n
  | _ => none

/-! String helpers.  The Rust code uses str::trim, str::starts_with and
str::to_lowercase; the Lean builtins for these do not reduce well inside the
kernel, so we use List Char based equivalents. -/

/-- Kernel-reducible model of str::trim (drop leading and trailing whitespace). -/
def trimChars (l : List Char) : List Char :=
  ((l.dropWhile Char.isWhitespace).reverse.dropWhile Char.isWhitespace).reverse

/-- Model of str::trim on String. -/
def strTrim (s : String) : String := ⟨trimChars s.data⟩

/-- Model of str::trim().is_empty(). -/
def trimEmpty (s : String) : Bool := (strTrim s).data.isEmpty

/-- Model of str::starts_with. -/
def strStartsWith (s p : String) : Bool := p.data.isPrefixOf s.data

/-- Model of str::to_lowercase (ASCII-level; enough for hex digests). -/
def strToLower (s : String) : String := ⟨s.data.map Char.toLower⟩

/-! Sidecar wire protocol (audio_dictation.rs). -/

/-- The closed event variant set decoded from the recognizer stdout,
mirroring enum SidecarEvent. -/
inductive SidecarEvent where
  | partialE (text : String) (unstable : Option String)
  | finalE (text : String) (start : Option Int) (endT : Option Int)
  | audioLevelE (level : Int)
  | errorE (code : String) (msg : String) (context : Json)
  | logE (msg : String)

/-- Embedding of parse_sidecar_event_line.  The serde_json::from_str step is
modelled by the decoded argument: an Except carrying either the serde error
text or the decoded value. -/
def parse_sidecar_event_line (line : String) (decoded : Except String Json) :
    Except String SidecarEvent :=
  match decoded with
  | .error e =>
    .error ("[audio.dictation] sidecar_invalid_json: " ++ e ++ "; line=" ++ line)
  | .ok v =>
    match v.asObj with
    | none =>
      .error ("[audio.dictation] sidecar_invalid_schema: line is not a JSON object; line=" ++ line)
    | some obj =>
      match (jget obj "t").bind Json.asStr with
      | none =>
        .error ("[audio.dictation] sidecar_invalid_schema: missing t; line=" ++ line)
      | some t =>
        if t = "partial" then
          match (jget obj "text").bind Json.asStr with
          | none =>
            .error ("[audio.dictation] sidecar_invalid_schema: partial missing text; line=" ++ line)
          | some text =>
            .ok (.partialE text ((jget obj "unstable").bind Json.asStr))
        else if t = "final" then
          match (jget obj "text").bind Json.asStr with
          | none =>
            .error ("[audio.dictation] sidecar_invalid_schema: final missing text; line=" ++ line)
          | some text =>
            .ok (.finalE text ((jget obj "start").bind Json.asNum)
              ((jget obj "end").bind Json.asNum))
        else if t = "audio_level" then
          match (jget obj "level").bind Json.asNum with
          | none =>
            .error ("[audio.dictation] sidecar_invalid_schema: audio_level missing level; line=" ++ line)
          | some level => .ok (.audioLevelE level)
        else if t = "log" then
          .ok (.logE (((jget obj "msg").bind Json.asStr).getD ""))
        else if t = "error" then
          match (jget obj "code").bind Json.asStr with
          | none =>
            .error ("[audio.dictation] sidecar_invalid_schema: error missing code; line=" ++ line)
          | some code =>
            match (jget obj "msg").bind Json.asStr with
            | none =>
              .error ("[audio.dictation] sidecar_invalid_schema: error missing msg; line=" ++ line)
            | some msg =>
              .ok (.errorE code msg ((jget obj "context").getD (.obj [])))
        else
          .error ("[audio.dictation] sidecar_invalid_schema: unknown t value: " ++ t ++ "; line=" ++ line)

/-! Asset manager data model (audio_models.rs).  Paths are modelled as a raw
string paired with its parse into components, mirroring std::path::Path:
absolute flag plus the component list, where a parent component is Rust's
Component::ParentDir.  A wellformed parse never stores ".." inside a normal
component. -/

inductive PathComp where
  | normal (s : String)
  | parent
deriving DecidableEq

/-- The printable name of a component (used when joining paths). -/
def PathComp.name : PathComp → String
  | .normal s => s
  | .parent => ".."

structure PathStr where
  raw : String
  absolute : Bool
  comps : List PathComp
deriving DecidableEq

/-- Embedding of the repeated traversal guard
rel.is_absolute() || rel.components().any(ParentDir). -/
def PathStr.hasTraversal (p : PathStr) : Bool :=
  p.absolute || p.comps.any (fun c => match c with | .parent => true | .normal _ => false)

/-- Component names of the parsed path, used to join it below a root. -/
def PathStr.names (p : PathStr) : List String := p.comps.map PathComp.name

/-- A parse is wellformed when no normal component is itself "..": this is an
invariant of parsing a real string into components. -/
def PathStr.wf (p : PathStr) : Prop :=
  ∀ c ∈ p.comps, c ≠ PathComp.parent → c.name ≠ ".."

instance (p : PathStr) : Decidable p.wf := by
  unfold PathStr.wf
  infer_instance

structure ModelFile where
  path : PathStr
  download_url : String
  sha256 : String
  size : Nat
deriving DecidableEq

structure MacosManifest where
  revision_sha : String
  files : List ModelFile
deriving DecidableEq

structure ModelSpec where
  key : String
  repo_dirname : PathStr
  model_id : String
  source_page_url : String
  macos : MacosManifest
deriving DecidableEq

structure ModelManifest where
  models : List ModelSpec
deriving DecidableEq

structure ModelInstallStatus where
  key : String
  repo_dirname : String
  revision_sha : String
  total_files : Nat
  present_files : Nat
  total_bytes : Nat
  present_bytes : Nat
deriving DecidableEq

/-- Embedding of AudioModelsError; the structured JSON context is elided. -/
structure AudioModelsError where
  code : String
  message : String
deriving DecidableEq

inductive AudioModelsStatus where
  | manifestIncomplete (message : String) (missing : List String)
  | notInstalled (models_dir : List String) (total_files present_files total_bytes present_bytes : Nat)
      (models : List ModelInstallStatus)
  | ready (models_dir : List String) (total_files total_bytes : Nat)
      (models : List ModelInstallStatus)
  | errorSt (code message : String)
deriving DecidableEq

def REQUIRED_MODEL_KEYS : List String := ["asr_tdt_v3", "silero_vad_v6"]

/-! Abstract filesystem.  Paths are component lists below an abstract root;
a node is a regular file with its content bytes, or a directory. -/

inductive FsNode where
  | file (content : List Nat)
  | dir
deriving DecidableEq

structure FileMeta where
  isFile : Bool
  len : Nat
deriving DecidableEq

structure FSState where
  nodes : List String → Option FsNode

/-- Pointwise update of the filesystem. -/
def FSState.set (fs : FSState) (p : List String) (n : Option FsNode) : FSState :=
  ⟨fun q => if q = p then n else fs.nodes q⟩

/-- Embedding of std::fs::metadata as observed by the asset manager:
is_file() and len(). -/
def FSState.metaOf (fs : FSState) (p : List String) : Option FileMeta :=
  match fs.nodes p with
  | some (.file c) => some ⟨true, c.length⟩
  | some .dir => some ⟨false, 0⟩
  | none => none

/-- Effect of create_dir_all when it succeeds: the path becomes a directory
if nothing was there. -/
def FSState.mkdirEff (fs : FSState) (p : List String) : FSState :=
  match fs.nodes p with
  | none => fs.set p (some .dir)
  | some _ => fs

/-- Effect of Write::write_all on the open file: append the chunk to the
file content. -/
def FSState.appendFile (fs : FSState) (p : List String) (c : List Nat) : FSState :=
  match fs.nodes p with
  | some (.file old) => fs.set p (some (.file (old ++ c)))
  | _ => fs.set p (some (.file c))

/-! Dictation supervisor (audio_dictation.rs).  The host event channel is
modelled as a list of emitted events; process-level actions (spawn, kill,
reap) are recorded separately for frame claims. -/

inductive DEv where
  | partialEv (id text : String) (unstable : Option String)
  | finalEv (id text : String) (start endT : Option Int)
  | levelEv (id : String) (level : Int)
  | errorEv (id code message : String) (context : Json)
  | doneEv (id : String)

inductive DAct where
  | spawn
  | kill
  | reap
deriving DecidableEq

/-- One result of BufReader::read_line on the sidecar stdout: an IO error, or
a line given by its trimmed text together with its serde_json decode result.
End-of-stream is the end of the list. -/
inductive ReadItem where
  | ioErr (msg : String)
  | lineOk (trimmed : String) (decoded : Except String Json)

/-- Embedding of emit_done_once: the one-way completion flag transitions
false to true via compare_exchange; the done event is emitted only by the
transition that wins. -/
def emit_done_once (id : String) (doneFlag : Bool) : Bool × List DEv :=
  if doneFlag then (true, []) else (true, [.doneEv id])

/-- Embedding of the stdout reader loop body of dictation_start: blank lines
are skipped, a read error or parse failure or a wellformed Error event stops
the loop.  Returns the emitted events and whether the had_error flag was set
by this loop. -/
def readerLoop (id : String) : List ReadItem → List DEv × Bool
  | [] => ([], false)
  | .ioErr e :: _ =>
    ([.errorEv id "sidecar_io_failed" "Failed while reading sidecar stdout"
        (.obj [("error", .str e)])], true)
  | .lineOk trimmed decoded :: rest =>
    if trimmed.data.isEmpty then readerLoop id rest
    else
      match parse_sidecar_event_line trimmed decoded with
      | .error err =>
        ([.errorEv id "sidecar_invalid_json" "Failed to parse sidecar stdout line"
            (.obj [("error", .str err), ("line", .str trimmed)])], true)
      | .ok ev =>
        match ev with
        | .partialE text unstable =>
          let (evs, he) := readerLoop id rest
          (.partialEv id text unstable :: evs, he)
        | .finalE text start endT =>
          let (evs, he) := readerLoop id rest
          (.finalEv id text start endT :: evs, he)
        | .audioLevelE level =>
          let (evs, he) := readerLoop id rest
          (.levelEv id level :: evs, he)
        | .errorE code msg ctx =>
          ([.errorEv id code msg ctx], true)
        | .logE _ => readerLoop id rest

/-- The whole stdout reader thread: run the loop over the stream, then emit
the done event exactly once through the shared flag. -/
def readerRun (id : String) (doneFlag hadErrFlag : Bool) (items : List ReadItem) :
    Bool × Bool × List DEv :=
  let (evs, he) := readerLoop id items
  let (df, devs) := emit_done_once id doneFlag
  (df, hadErrFlag || he, evs ++ devs)

/-- The exclusive session slot holds at most the active session id; the
shared atomic flags are threaded explicitly beside it. -/
structure SessionS where
  dictation_id : String
deriving DecidableEq

structure ExitSt where
  success : Bool
  code : Option Int
deriving DecidableEq

/-- Environment for dictation_stop: outcomes of the mic_stop write, the
flush, and waiting for the child, plus the joined stderr text. -/
structure StopEnv where
  writeRes : Option String
  flushRes : Option String
  waitRes : Except String ExitSt
  stderrText : String

/-- Embedding of dictation_stop.  Returns the call result, the new slot
content, the completion flag, the had_error flag, the emitted events and the
process actions. -/
def dictation_stop (sid : String) (slot : Option SessionS) (doneFlag hadErrFlag : Bool)
    (env : StopEnv) :
    Except String Unit × Option SessionS × Bool × Bool × List DEv × List DAct :=
  if trimEmpty sid then
    (.error "[audio.dictation.stop] dictationId is required", slot, doneFlag, hadErrFlag, [], [])
  else
    match slot with
    | none => (.ok (), none, doneFlag, hadErrFlag, [], [])
    | some s =>
      if s.dictation_id ≠ sid then
        (.error ("[audio.dictation.stop] dictationId does not match active session (active="
            ++ s.dictation_id ++ ")"), slot, doneFlag, hadErrFlag, [], [])
      else
        match env.writeRes with
        | some e =>
          (.ok (), none, doneFlag, true,
            [.errorEv sid "sidecar_io_failed" "Failed to write mic_stop to sidecar stdin"
              (.obj [("error", .str e)])], [.kill, .reap])
        | none =>
          match env.flushRes with
          | some e =>
            (.ok (), none, doneFlag, true,
              [.errorEv sid "sidecar_io_failed" "Failed to flush sidecar stdin"
                (.obj [("error", .str e)])], [.kill, .reap])
          | none =>
            match env.waitRes with
            | .error e =>
              (.error ("[audio.dictation.stop] Failed waiting for sidecar to exit: " ++ e),
                none, doneFlag, hadErrFlag, [], [])
            | .ok st =>
              let (he1, evs1) :=
                if !st.success && !hadErrFlag then
                  (true, [.errorEv sid "sidecar_failed" "asr-sidecar exited with non-zero status"
                    (.obj [("exitCode", .num (st.code.getD (-1))),
                           ("stderr", .str env.stderrText)])])
                else (hadErrFlag, [])
              let (df, devs) := emit_done_once sid doneFlag
              (.ok (), none, df, he1, evs1 ++ devs, [])

/-- Outcome of Child::try_wait on the previously stored session. -/
inductive TryWait where
  | exited
  | errWait
  | running
deriving DecidableEq

/-- Environment for dictation_start: the readiness query result, the models
directory resolution, the sidecar discovery inputs, and the outcomes of
spawn and of the three stdin control writes. -/
structure StartEnv where
  tryWaitRes : TryWait
  modelsStatus : Except AudioModelsError AudioModelsStatus
  modelsDirRes : Except AudioModelsError (List String)
  currentExe : Except String (List String)
  dirEntries : Except String (List String)
  pathExists : List String → Bool
  spawnRes : Option String
  writeInitRes : Option String
  writeStartRes : Option String
  flushRes : Option String

/-- Embedding of resolve_asr_sidecar_entry: scan the directory beside the
host executable for the first entry whose name starts with the fixed prefix. -/
def resolve_asr_sidecar_entry (env : StartEnv) : Except String (List String) :=
  match env.currentExe with
  | .error e => .error ("[audio.dictation] Failed to get current exe: " ++ e)
  | .ok exe =>
    if exe.isEmpty then .error "[audio.dictation] Failed to get exe parent"
    else
      match env.dirEntries with
      | .error e => .error ("[audio.dictation] Failed to read resource dir: " ++ e)
      | .ok entries =>
        match entries.find? (fun name => strStartsWith name "asr-sidecar") with
        | some name => .ok (exe.dropLast ++ [name])
        | none =>
          .error ("[audio.dictation] asr-sidecar binary not found in "
            ++ String.intercalate "/" exe.dropLast
            ++ ". Build it via scripts/build_asr_sidecar.sh")

def AudioModelsStatus.isReady : AudioModelsStatus → Bool
  | .ready .. => true
  | _ => false

/-- Continuation of dictation_start once the slot is known to be free: gate
on readiness, resolve the models dir and the sidecar, spawn, write the init
and mic_start commands, store the session.  The model_not_ready context
carries the full status blob in the source; it is abstracted to null here. -/
def dictation_start_core (id : String) (env : StartEnv) :
    Except String Unit × Option SessionS × List DEv × List DAct :=
  match env.modelsStatus with
  | .error e =>
    (.error ("[audio.dictation.start] Failed to check audio model status: "
        ++ e.message ++ " (" ++ e.code ++ ")"), none, [], [])
  | .ok st =>
    if !st.isReady then
      (.ok (), none,
        [.errorEv id "model_not_ready"
          "Speech models are not ready; download them in Settings"
          (.obj [("status", .null)])], [])
    else
      match env.modelsDirRes with
      | .error e =>
        (.error ("[audio.dictation.start] Failed to resolve models dir: "
            ++ e.message ++ " (" ++ e.code ++ ")"), none, [], [])
      | .ok _ =>
        match resolve_asr_sidecar_entry env with
        | .error e => (.error e, none, [], [])
        | .ok sidecarPath =>
          if !env.pathExists sidecarPath then
            (.ok (), none,
              [.errorEv id "sidecar_not_found" "asr-sidecar binary not found"
                (.obj [("expectedPath", .str (String.intercalate "/" sidecarPath))])], [])
          else
            match env.spawnRes with
            | some e =>
              (.error ("[audio.dictation.start] Failed to spawn asr-sidecar: " ++ e),
                none, [], [])
            | none =>
              match env.writeInitRes with
              | some e =>
                (.error ("[audio.dictation.start] Failed to write init to stdin: " ++ e),
                  none, [], [.spawn])
              | none =>
                match env.writeStartRes with
                | some e =>
                  (.error ("[audio.dictation.start] Failed to write mic_start to stdin: " ++ e),
                    none, [], [.spawn])
                | none =>
                  match env.flushRes with
                  | some e =>
                    (.error ("[audio.dictation.start] Failed to flush stdin: " ++ e),
                      none, [], [.spawn])
                  | none => (.ok (), some ⟨id⟩, [], [.spawn])

/-- Embedding of dictation_start: reject an empty id, reap an exited session
or reject while one is still running, then run the core continuation. -/
def dictation_start (id : String) (slot : Option SessionS) (env : StartEnv) :
    Except String Unit × Option SessionS × List DEv × List DAct :=
  if trimEmpty id then
    (.error "[audio.dictation.start] dictationId is required", slot, [], [])
  else
    match slot with
    | none => dictation_start_core id env
    | some existing =>
      match env.tryWaitRes with
      | .running =>
        (.ok (), slot,
          [.errorEv id "invalid_state" "Dictation is already running"
            (.obj [("activeDictationId", .str existing.dictation_id)])], [])
      | _ =>
        let (r, slot1, evs, acts) := dictation_start_core id env
        (r, slot1, evs, .reap :: acts)

/-! Asset readiness checker and downloader (audio_models.rs).  Every emitted
host event and every filesystem access (directory creation, metadata read,
HTTP request) is recorded in a single trace list. -/

inductive MEv where
  | progress (bytesDownloaded bytesTotal : Nat)
  | downloadDone
  | downloadError (code message : String)
  | mkdirA (path : List String)
  | metaReadA (path : List String)
  | httpGetA (url : String)
deriving DecidableEq

/-- Saturating addition at the u64 (and 64-bit usize) bound, mirroring
saturating_add. -/
def satAdd (a b : Nat) : Nat := min (a + b) (2 ^ 64 - 1)

/-- Wrapping addition at the u64 bound, mirroring the release-mode Sum
in handle_download_start. -/
def wrapAdd64 (a b : Nat) : Nat := (a + b) % 2 ^ 64

/-- Environment for path resolution: the app_data_dir result and which
create_dir_all calls fail. -/
structure ModelsEnv where
  appDataDir : Except String (List String)
  createDirFails : List String → Bool

/-- Embedding of models_dir: resolve the app data dir and create
base/models. -/
def models_dir (env : ModelsEnv) : Except AudioModelsError (List String) × List MEv :=
  match env.appDataDir with
  | .error m => (.error ⟨"path_resolve_failed", m⟩, [])
  | .ok base =>
    let dir := base ++ ["models"]
    if env.createDirFails dir then
      (.error ⟨"io_failed", "Failed to create models dir"⟩, [.mkdirA dir])
    else (.ok dir, [.mkdirA dir])

/-- Embedding of repo_dir: validate repo_dirname (non-empty, relative, no
parent segment), then create models_dir/repo_dirname. -/
def repo_dir (env : ModelsEnv) (rd : PathStr) : Except AudioModelsError (List String) × List MEv :=
  if trimEmpty rd.raw then
    (.error ⟨"invalid_args", "repo_dirname is required"⟩, [])
  else if rd.hasTraversal then
    (.error ⟨"invalid_args", "repo_dirname must be a relative path without parent segments"⟩, [])
  else
    match models_dir env with
    | (.error e, tr) => (.error e, tr)
    | (.ok root, tr) =>
      let dir := root ++ rd.names
      if env.createDirFails dir then
        (.error ⟨"io_failed", "Failed to create model repo dir"⟩, tr ++ [.mkdirA dir])
      else (.ok dir, tr ++ [.mkdirA dir])

/-- The presence check shared verbatim by get_status and
handle_download_start: Ok metadata, is_file, and len equal to the declared
size. -/
def filePresent (fs : FSState) (p : List String) (size : Nat) : Bool :=
  match fs.metaOf p with
  | some m => m.isFile && m.len == size
  | none => false

/-- Dot-path field names of the omissions of one required model, in source
order. -/
def missingOfModel (idx : Nat) (m : ModelSpec) : List String :=
  (if trimEmpty m.key then ["models[" ++ toString idx ++ "].key"] else []) ++
  (if trimEmpty m.repo_dirname.raw then ["models[" ++ toString idx ++ "].repo_dirname"] else []) ++
  (if trimEmpty m.model_id then ["models[" ++ toString idx ++ "].model_id"] else []) ++
  (if trimEmpty m.source_page_url then ["models[" ++ toString idx ++ "].source_page_url"] else []) ++
  (if trimEmpty m.macos.revision_sha then ["models[" ++ toString idx ++ "].macos.revision_sha"] else []) ++
  (if m.macos.files.isEmpty then ["models[" ++ toString idx ++ "].macos.files"] else [])

/-- Accumulate the missing required fields across every required model,
never short-circuiting (the validation loop of get_status). -/
def collectMissing (required : List String) : Nat → List ModelSpec → List String
  | _, [] => []
  | idx, m :: rest =>
    (if required.any (fun k => k == m.key) then missingOfModel idx m else []) ++
    collectMissing required (idx + 1) rest

/-- Per-file scan loop of get_status: count totals, guard each declared path
against traversal, then test presence. -/
def scanFiles (fs : FSState) (repo : List String) :
    List ModelFile → Nat → Nat → Nat → Nat →
    Except AudioModelsError (Nat × Nat × Nat × Nat) × List MEv
  | [], tf, pf, tb, pb => (.ok (tf, pf, tb, pb), [])
  | f :: rest, tf, pf, tb, pb =>
    let tf1 := satAdd tf 1
    let tb1 := satAdd tb f.size
    if f.path.hasTraversal then
      (.error ⟨"manifest_invalid", "Manifest contains an invalid relative path"⟩, [])
    else
      let ep := repo ++ f.path.names
      if filePresent fs ep f.size then
        let (r, tr) := scanFiles fs repo rest tf1 (satAdd pf 1) tb1 (satAdd pb f.size)
        (r, .metaReadA ep :: tr)
      else
        let (r, tr) := scanFiles fs repo rest tf1 pf tb1 pb
        (r, .metaReadA ep :: tr)

/-- Per-model scan loop of get_status: resolve each required model's repo
dir, scan its files, and aggregate. -/
def scanModels (env : ModelsEnv) (fs : FSState) (required : List String) :
    List ModelSpec → Nat → Nat → Nat → Nat → List ModelInstallStatus →
    Except AudioModelsError (Nat × Nat × Nat × Nat × List ModelInstallStatus) × List MEv
  | [], tf, pf, tb, pb, acc => (.ok (tf, pf, tb, pb, acc), [])
  | m :: rest, tf, pf, tb, pb, acc =>
    if required.any (fun k => k == m.key) then
      match repo_dir env m.repo_dirname with
      | (.error e, tr) => (.error e, tr)
      | (.ok repo, tr) =>
        match scanFiles fs repo m.macos.files 0 0 0 0 with
        | (.error e, tr2) => (.error e, tr ++ tr2)
        | (.ok (mtf, mpf, mtb, mpb), tr2) =>
          let st : ModelInstallStatus :=
            ⟨m.key, m.repo_dirname.raw, m.macos.revision_sha, mtf, mpf, mtb, mpb⟩
          let (r, tr3) := scanModels env fs required rest
            (satAdd tf mtf) (satAdd pf mpf) (satAdd tb mtb) (satAdd pb mpb) (acc ++ [st])
          (r, tr ++ tr2 ++ tr3)
    else
      scanModels env fs required rest tf pf tb pb acc

/-- Embedding of get_status.  The load_manifest result is passed in as an
Except, mirroring the embedded JSON parse. -/
def get_status (env : ModelsEnv) (fs : FSState) (required : List String)
    (manifest : Except AudioModelsError ModelManifest) :
    Except AudioModelsError AudioModelsStatus × List MEv :=
  if required.isEmpty then
    (.error ⟨"settings_invalid", "No required models configured"⟩, [])
  else
    match manifest with
    | .error e => (.error e, [])
    | .ok man =>
      if man.models.isEmpty then
        (.ok (.manifestIncomplete "Model manifest has no models" ["models"]), [])
      else if !(required.all (fun k => man.models.any (fun m => m.key == k))) then
        (.error ⟨"manifest_invalid", "Required model key does not exist in manifest"⟩, [])
      else
        let missing := collectMissing required 0 man.models
        if !missing.isEmpty then
          (.ok (.manifestIncomplete
            "Model manifest is missing required fields to determine readiness" missing), [])
        else
          match models_dir env with
          | (.error e, tr) => (.error e, tr)
          | (.ok root, tr) =>
            match scanModels env fs required man.models 0 0 0 0 [] with
            | (.error e, tr2) => (.error e, tr ++ tr2)
            | (.ok (tf, pf, tb, pb, ms), tr2) =>
              if pf ≠ tf then
                (.ok (.notInstalled root tf pf tb pb ms), tr ++ tr2)
              else
                (.ok (.ready root tf tb ms), tr ++ tr2)

/-! Downloader. -/

structure PendingDownload where
  dest_path : List String
  download_url : String
  expected_sha256 : String
  expected_size : Nat
deriving DecidableEq

/-- Declared total bytes over the required models' files, with the
release-mode wrapping Sum of the source. -/
def totalBytesOf (models : List ModelSpec) : Nat :=
  (((models.filter (fun m => REQUIRED_MODEL_KEYS.any (fun k => k == m.key))).flatMap
      (fun m => m.macos.files)).map (fun f => f.size)).foldl wrapAdd64 0

/-- File loop of the worklist construction of handle_download_start: guard
each path, skip files already present, queue the rest in order. -/
def buildFiles (fs : FSState) (repo : List String) :
    List ModelFile → Nat → List PendingDownload →
    Except (String × String) (Nat × List PendingDownload) × List MEv
  | [], pb, acc => (.ok (pb, acc), [])
  | f :: rest, pb, acc =>
    if f.path.hasTraversal then
      (.error ("manifest_invalid", "Manifest contains an invalid relative path"), [])
    else
      let dest := repo ++ f.path.names
      if filePresent fs dest f.size then
        let (r, tr) := buildFiles fs repo rest (satAdd pb f.size) acc
        (r, .metaReadA dest :: tr)
      else
        let (r, tr) := buildFiles fs repo rest pb
          (acc ++ [⟨dest, f.download_url, f.sha256, f.size⟩])
        (r, .metaReadA dest :: tr)

/-- Model loop of the worklist construction of handle_download_start. -/
def buildPending (env : ModelsEnv) (fs : FSState) :
    List ModelSpec → Nat → List PendingDownload →
    Except (String × String) (Nat × List PendingDownload) × List MEv
  | [], pb, acc => (.ok (pb, acc), [])
  | m :: rest, pb, acc =>
    if REQUIRED_MODEL_KEYS.any (fun k => k == m.key) then
      if m.macos.files.isEmpty then
        (.error ("manifest_incomplete", "Model manifest has a required model with no files"), [])
      else
        match repo_dir env m.repo_dirname with
        | (.error e, tr) => (.error (e.code, e.message), tr)
        | (.ok repo, tr) =>
          match buildFiles fs repo m.macos.files pb acc with
          | (.error em, tr2) => (.error em, tr ++ tr2)
          | (.ok (pb1, acc1), tr2) =>
            let (r, tr3) := buildPending env fs rest pb1 acc1
            (r, tr ++ tr2 ++ tr3)
    else
      buildPending env fs rest pb acc

/-- Synchronous part of handle_download_start: the single-flight guard swap,
manifest load, worklist construction, and the empty-worklist fast path.  The
returned option is the campaign handed to the spawned task (worklist, total
bytes, present bytes); the returned Bool is the guard state when the
function returns. -/
def handle_download_start (env : ModelsEnv) (fs : FSState) (guard : Bool)
    (manifest : Except AudioModelsError ModelManifest) :
    Bool × List MEv × Option (List PendingDownload × Nat × Nat) :=
  if guard then
    (true, [.downloadError "invalid_state" "Download is already in progress"], none)
  else
    match manifest with
    | .error e => (false, [.downloadError e.code e.message], none)
    | .ok man =>
      let total := totalBytesOf man.models
      match buildPending env fs man.models 0 [] with
      | (.error (c, m), tr) => (false, tr ++ [.downloadError c m], none)
      | (.ok (present, pending), tr) =>
        if pending.isEmpty then
          (false, tr ++ [.progress total total, .downloadDone], none)
        else
          (true, tr, some (pending, total, present))

/-- One item of the streamed HTTP body. -/
inductive StreamItem where
  | chunkOk (bytes : List Nat)
  | chunkErr (msg : String)
deriving DecidableEq

inductive HttpOutcome where
  | sendErr (msg : String)
  | resp (status : Nat) (stream : List StreamItem)
deriving DecidableEq

/-- Environment for the download pipeline: the HTTP layer plus failure
injection for each filesystem operation, and the SHA-256 hex digest treated
as an abstract function of the content bytes. -/
structure DlEnv where
  http : String → HttpOutcome
  createDirFails : List String → Bool
  createFileFails : List String → Bool
  writeFails : List String → Nat → Bool
  flushFails : List String → Bool
  statFails : List String → Bool
  removeFails : List String → Bool
  renameFails : List String → List String → Bool
  sha256hex : List Nat → String

/-- Chunk loop of download_to_path: write each chunk to the temp file, count
bytes with saturation, and emit a progress event carrying the global offset
plus the bytes streamed so far. -/
def streamLoop (env : DlEnv) (tmp : List String) (total off : Nat) :
    List StreamItem → Nat → FSState → Nat →
    Except AudioModelsError Nat × FSState × List MEv
  | [], _, fs, dn => (.ok dn, fs, [])
  | .chunkErr _ :: _, _, fs, _ =>
    (.error ⟨"http_failed", "Failed while streaming HTTP response"⟩, fs, [])
  | .chunkOk c :: rest, idx, fs, dn =>
    if env.writeFails tmp idx then
      (.error ⟨"io_failed", "Failed to write downloaded chunk"⟩, fs, [])
    else
      let dn1 := satAdd dn c.length
      let (r, fs2, evs) := streamLoop env tmp total off rest (idx + 1) (fs.appendFile tmp c) dn1
      (r, fs2, .progress (satAdd off dn1) total :: evs)

/-- Verification tail of download_to_path, after the stream has ended:
flush, stat, size verification against the temp-file length, and
case-insensitive checksum verification (skipped when the manifest checksum
is blank).  The running hasher of the source digests exactly the chunks
written, which equal the final temp-file content, so the digest is taken of
that content. -/
def verifyDownloaded (env : DlEnv) (fs3 : FSState) (tmp : List String)
    (expectedSha : String) (expectedSize : Nat) (dn : Nat) (tr : List MEv) :
    Except AudioModelsError Nat × FSState × List MEv :=
  if env.flushFails tmp then
    (.error ⟨"io_failed", "Failed to flush temp file"⟩, fs3, tr)
  else if env.statFails tmp then
    (.error ⟨"io_failed", "Failed to stat downloaded file"⟩, fs3, tr)
  else
    let content := match fs3.nodes tmp with
      | some (.file c) => c
      | _ => []
    if content.length ≠ expectedSize then
      (.error ⟨"size_mismatch", "Downloaded file size does not match expected value"⟩,
        fs3, tr)
    else if (strTrim expectedSha).data.isEmpty then
      (.ok dn, fs3, tr)
    else if strToLower (env.sha256hex content) ≠ strToLower (strTrim expectedSha) then
      (.error ⟨"sha256_mismatch", "Downloaded file SHA256 does not match expected value"⟩,
        fs3, tr)
    else (.ok dn, fs3, tr)

/-- Embedding of download_to_path: request, status check, temp-file setup,
chunk streaming, then the verification tail. -/
def download_to_path (env : DlEnv) (fs : FSState) (url : String) (tmp : List String)
    (expectedSha : String) (expectedSize : Nat) (total off : Nat) :
    Except AudioModelsError Nat × FSState × List MEv :=
  match env.http url with
  | .sendErr _ => (.error ⟨"http_failed", "Failed to start HTTP download"⟩, fs, [.httpGetA url])
  | .resp status stream =>
    if !(200 ≤ status && status < 300) then
      (.error ⟨"http_failed", "HTTP download returned non-success status"⟩, fs, [.httpGetA url])
    else
      let parent := tmp.dropLast
      if env.createDirFails parent then
        (.error ⟨"io_failed", "Failed to create download directory"⟩, fs,
          [.httpGetA url, .mkdirA parent])
      else
        let fs1 := fs.mkdirEff parent
        if env.createFileFails tmp then
          (.error ⟨"io_failed", "Failed to create temp download file"⟩, fs1,
            [.httpGetA url, .mkdirA parent])
        else
          let fs2 := fs1.set tmp (some (.file []))
          match streamLoop env tmp total off stream 0 fs2 0 with
          | (.error e, fs3, evs) => (.error e, fs3, .httpGetA url :: .mkdirA parent :: evs)
          | (.ok dn, fs3, evs) =>
            verifyDownloaded env fs3 tmp expectedSha expectedSize dn
              (.httpGetA url :: .mkdirA parent :: evs)

/-- Rename finalization of one worklist entry: remove-then-rename into
place. -/
def renameStep (env : DlEnv) (fs : FSState) (tmp dest : List String) (dn : Nat)
    (tr : List MEv) :
    Except AudioModelsError Nat × FSState × List MEv :=
  if env.renameFails tmp dest then
    (.error ⟨"io_failed", "Failed to move downloaded file into place"⟩, fs, tr)
  else
    (.ok dn, (fs.set dest (fs.nodes tmp)).set tmp none, tr)

/-- Finalization of one worklist entry after a verified download: create the
destination directory, remove a pre-existing destination, and rename into
place.  None of these steps deletes the temp file on failure. -/
def finalizeOne (env : DlEnv) (fs1 : FSState) (tmp dest : List String) (dn : Nat)
    (evs : List MEv) : Except AudioModelsError Nat × FSState × List MEv :=
  let parent := dest.dropLast
  if env.createDirFails parent then
    (.error ⟨"io_failed", "Failed to create destination directory"⟩, fs1,
      evs ++ [.mkdirA parent])
  else
    let fs2 := fs1.mkdirEff parent
    let tr := evs ++ [MEv.mkdirA parent]
    match fs2.nodes dest with
    | some _ =>
      if env.removeFails dest then
        (.error ⟨"io_failed", "Failed to remove existing file before replacing it"⟩, fs2, tr)
      else
        renameStep env (fs2.set dest none) tmp dest dn tr
    | none => renameStep env fs2 tmp dest dn tr

/-- One iteration of the download_all loop over a worklist entry: derive the
sibling temp path, download into it (deleting the temp file on that
failure), then finalize. -/
def processOne (env : DlEnv) (fs : FSState) (p : PendingDownload) (total off : Nat) :
    Except AudioModelsError Nat × FSState × List MEv :=
  match p.dest_path.getLast? with
  | none => (.error ⟨"manifest_invalid", "Manifest file path has no filename"⟩, fs, [])
  | some name =>
    let tmp := p.dest_path.dropLast ++ [name ++ ".partial"]
    match download_to_path env fs p.download_url tmp p.expected_sha256 p.expected_size total off with
    | (.error e, fs1, evs) =>
      let fs2 := if env.removeFails tmp then fs1 else fs1.set tmp none
      (.error e, fs2, evs)
    | (.ok dn, fs1, evs) => finalizeOne env fs1 tmp p.dest_path dn evs

/-- Worklist loop of download_all, with the trailing pinned progress event
after the last entry. -/
def download_all_go (env : DlEnv) (total : Nat) :
    List PendingDownload → FSState → Nat →
    Except AudioModelsError Unit × FSState × List MEv
  | [], fs, _ => (.ok (), fs, [.progress total total])
  | p :: rest, fs, off =>
    match processOne env fs p total off with
    | (.error e, fs1, evs) => (.error e, fs1, evs)
    | (.ok dn, fs1, evs) =>
      let (r, fs2, evs2) := download_all_go env total rest fs1 (satAdd off dn)
      (r, fs2, evs ++ evs2)

/-- Embedding of download_all: the immediate initial progress event, then
the worklist loop. -/
def download_all (env : DlEnv) (fs : FSState) (pending : List PendingDownload)
    (total present : Nat) :
    Except AudioModelsError Unit × FSState × List MEv :=
  let (r, fs1, evs) := download_all_go env total pending fs present
  (r, fs1, .progress present total :: evs)

/-- The spawned campaign task of handle_download_start: run download_all,
then emit done on success or the error event on failure. -/
def run_campaign (env : DlEnv) (fs : FSState) (pending : List PendingDownload)
    (total present : Nat) : FSState × List MEv :=
  match download_all env fs pending total present with
  | (.ok _, fs1, evs) => (fs1, evs ++ [.downloadDone])
  | (.error e, fs1, evs) => (fs1, evs ++ [.downloadError e.code e.message])

/-- Whole download request: synchronous phase plus, when a campaign is
spawned, the campaign task; the single-flight guard is released on every
path. -/
def handle_download_start_full (env : ModelsEnv) (dl : DlEnv) (fs : FSState) (guard : Bool)
    (manifest : Except AudioModelsError ModelManifest) : Bool × FSState × List MEv :=
  match handle_download_start env fs guard manifest with
  | (g, evs, none) => (g, fs, evs)
  | (_, evs, some (pending, total, present)) =>
    let (fs1, evs2) := run_campaign dl fs pending total present
    (false, fs1, evs ++ evs2)

/-! Observation helpers used by the claim statements. -/

/-- Number of done events for a given session id in a dictation event list. -/
def countDone (id : String) (evs : List DEv) : Nat :=
  (evs.filter (fun e => match e with | .doneEv i => i == id | _ => false)).length

/-- Codes of the error events in a dictation event list. -/
def errorCodes (evs : List DEv) : List String :=
  evs.filterMap (fun e => match e with | .errorEv _ code _ _ => some code | _ => none)

/-- URLs of the HTTP requests recorded in an asset trace, in order. -/
def httpReqs (evs : List MEv) : List String :=
  evs.filterMap (fun e => match e with | .httpGetA u => some u | _ => none)

/-- The bytesDownloaded values of the progress events of an asset trace, in
order. -/
def progressVals (evs : List MEv) : List Nat :=
  evs.filterMap (fun e => match e with | .progress b _ => some b | _ => none)

/-- The bytesTotal values of the progress events of an asset trace. -/
def progressTotals (evs : List MEv) : List Nat :=
  evs.filterMap (fun e => match e with | .progress _ t => some t | _ => none)

/-- Codes of the download error events of an asset trace. -/
def dlErrorCodes (evs : List MEv) : List String :=
  evs.filterMap (fun e => match e with | .downloadError c _ => some c | _ => none)

/-- Filesystem paths touched (created or statted) by an asset trace. -/
def fsAccesses (evs : List MEv) : List (List String) :=
  evs.filterMap (fun e => match e with
    | .mkdirA p => some p
    | .metaReadA p => some p
    | _ => none)

/-- A path lies inside the models directory: it extends the models root and
descends only through non-parent components. -/
def UnderRoot (root p : List String) : Prop :=
  ∃ suffix, p = root ++ suffix ∧ ".." ∉ suffix

/-- Presence as the specification states it: a regular file exists at the
resolved path and its byte length equals the manifest-declared size. -/
def PresentSpec (fs : FSState) (p : List String) (size : Nat) : Prop :=
  ∃ c, fs.nodes p = some (.file c) ∧ c.length = size

/-- Sibling temp path of a worklist entry, name suffixed with ".partial". -/
def tmpPathOf (dest : List String) : List String :=
  dest.dropLast ++ [(dest.getLast?.getD "") ++ ".partial"]

/-! Concrete environments used by witnesses and counterexamples. -/

/-- Start environment with models Ready and an empty resource directory:
no entry beside the host binary starts with the sidecar prefix. -/
def envNoSidecar : StartEnv where
  tryWaitRes := .exited
  modelsStatus := .ok (.ready ["home", "models"] 1 10 [])
  modelsDirRes := .ok ["home", "models"]
  currentExe := .ok ["app", "valedesk"]
  dirEntries := .ok ["other-file"]
  pathExists := fun _ => false
  spawnRes := none
  writeInitRes := none
  writeStartRes := none
  flushRes := none

/-- Start environment where a sidecar directory entry exists but the
resolved path fails the follow-up existence check. -/
def envStaleSidecar : StartEnv where
  tryWaitRes := .exited
  modelsStatus := .ok (.ready ["home", "models"] 1 10 [])
  modelsDirRes := .ok ["home", "models"]
  currentExe := .ok ["app", "valedesk"]
  dirEntries := .ok ["asr-sidecar-aarch64"]
  pathExists := fun _ => false
  spawnRes := none
  writeInitRes := none
  writeStartRes := none
  flushRes := none

/-- Stop environment where everything succeeds and the process exits
cleanly. -/
def envStopClean : StopEnv where
  writeRes := none
  flushRes := none
  waitRes := .ok ⟨true, some 0⟩
  stderrText := ""

/-- Path environment where resolution succeeds and no directory creation
fails. -/
def envMOk : ModelsEnv where
  appDataDir := .ok ["home"]
  createDirFails := fun _ => false

/-- Path environment in which only the repoA repo-subdirectory creation
fails. -/
def envRepoFail : ModelsEnv where
  appDataDir := .ok ["home"]
  createDirFails := fun p => p == ["home", "models", "repoA"]

/-- Empty filesystem. -/
def fsEmpty : FSState := ⟨fun _ => none⟩

/-- A wellformed single-component relative path. -/
def relPath (s : String) : PathStr := ⟨s, false, [.normal s]⟩

/-- A complete model file entry. -/
def fileA : ModelFile := ⟨relPath "model.bin", "https://host/model.bin", "0abc", 3⟩

/-- A fully populated required model spec. -/
def specOkA : ModelSpec :=
  ⟨"asr_tdt_v3", relPath "repoA", "nvidia/tdt", "https://host/a", ⟨"shaA", [fileA]⟩⟩

/-- A required model spec whose file list is empty. -/
def specEmptyB : ModelSpec :=
  ⟨"silero_vad_v6", relPath "repoB", "snakers4/vad", "https://host/b", ⟨"shaB", []⟩⟩

/-- Manifest in which the second required model has no files. -/
def manIncomplete : ModelManifest := ⟨[specOkA, specEmptyB]⟩

/-- A second complete model spec for the other required key. -/
def fileB : ModelFile := ⟨relPath "vad.onnx", "https://host/vad.onnx", "0def", 2⟩

def specOkB : ModelSpec :=
  ⟨"silero_vad_v6", relPath "repoB", "snakers4/vad", "https://host/b", ⟨"shaB", [fileB]⟩⟩

/-- A complete, clean manifest covering both required keys. -/
def manOk : ModelManifest := ⟨[specOkA, specOkB]⟩

/-- Filesystem holding the first manifest file fully and correctly sized. -/
def fsA : FSState :=
  ⟨fun p => if p = ["home", "models", "repoA", "model.bin"] then some (.file [7, 8, 9]) else none⟩

/-- Same shape as fsA but with different content bytes of the same length. -/
def fsA2 : FSState :=
  ⟨fun p => if p = ["home", "models", "repoA", "model.bin"] then some (.file [1, 2, 3]) else none⟩

/-- Download environment where everything succeeds except the final rename
into place. -/
def dlRenameFail : DlEnv where
  http := fun _ => .resp 200 [.chunkOk [1, 2, 3]]
  createDirFails := fun _ => false
  createFileFails := fun _ => false
  writeFails := fun _ _ => false
  flushFails := fun _ => false
  statFails := fun _ => false
  removeFails := fun _ => false
  renameFails := fun _ _ => true
  sha256hex := fun _ => ""

/-- Download environment where the HTTP request itself fails. -/
def dlHttpFail : DlEnv where
  http := fun _ => .sendErr "connection refused"
  createDirFails := fun _ => false
  createFileFails := fun _ => false
  writeFails := fun _ _ => false
  flushFails := fun _ => false
  statFails := fun _ => false
  removeFails := fun _ => false
  renameFails := fun _ _ => false
  sha256hex := fun _ => ""

/-- Download environment where everything succeeds. -/
def dlOk : DlEnv where
  http := fun _ => .resp 200 [.chunkOk [1, 2], .chunkOk [3]]
  createDirFails := fun _ => false
  createFileFails := fun _ => false
  writeFails := fun _ _ => false
  flushFails := fun _ => false
  statFails := fun _ => false
  removeFails := fun _ => false
  renameFails := fun _ _ => false
  sha256hex := fun _ => ""

/-- A single worklist entry of three bytes with blank checksum. -/
def pendingOne : PendingDownload :=
  ⟨["home", "models", "repoA", "model.bin"], "https://host/model.bin", "", 3⟩

/-- A file entry whose declared path traverses out of the repo directory. -/
def fileEvil : ModelFile :=
  ⟨⟨"../../etc/passwd", false, [.parent, .parent, .normal "etc", .normal "passwd"]⟩,
    "https://host/evil", "0bad", 4⟩

/-- Manifest whose second required model declares the traversing path. -/
def manEvil : ModelManifest :=
  ⟨[specOkA,
    ⟨"silero_vad_v6", relPath "repoB", "snakers4/vad", "https://host/b",
      ⟨"shaB", [fileEvil]⟩⟩]⟩

end ValeDesk

namespace ValeDesk

/-! Helper lemmas about the dictation embedding. -/

theorem countDone_append (id : String) (a b : List DEv) :
    countDone id (a ++ b) = countDone id a + countDone id b := by
  simp [countDone, List.filter_append]

theorem countDone_readerLoop (id id2 : String) (items : List ReadItem) :
    countDone id (readerLoop id2 items).1 = 0 := by
  induction items with
  | nil => simp [readerLoop, countDone]
  | cons x rest ih =>
    cases x with
    | ioErr e => simp [readerLoop, countDone]
    | lineOk s d =>
      cases hs : s.data.isEmpty with
      | true => simpa [readerLoop, hs] using ih
      | false =>
        cases hp : parse_sidecar_event_line s d with
        | error err => simp [readerLoop, hs, hp, countDone]
        | ok ev =>
          cases ev <;> simp_all [readerLoop, countDone]

theorem countDone_emit_done_once (id : String) (b : Bool) :
    countDone id (emit_done_once id b).2 = if b then 0 else 1 := by
  cases b <;> simp [emit_done_once, countDone]

theorem countDone_readerRun (id : String) (df he : Bool) (items : List ReadItem) :
    countDone id (readerRun id df he items).2.2 = if df then 0 else 1 := by
  unfold readerRun
  simp [countDone_append, countDone_readerLoop, countDone_emit_done_once, emit_done_once]
  cases df <;> simp [countDone]

theorem readerRun_doneFlag (id : String) (df he : Bool) (items : List ReadItem) :
    (readerRun id df he items).1 = true := by
  unfold readerRun
  cases df <;> simp [emit_done_once]

theorem dictation_stop_done_set (sid id : String) (he : Bool) (env : StopEnv) :
    countDone id (dictation_stop sid (some ⟨id⟩) true he env).2.2.2.2.1 = 0 := by
  obtain ⟨w, fl, wr, stx⟩ := env
  cases hts : trimEmpty sid <;>
    by_cases hid : id = sid <;>
      cases w <;> cases fl <;> cases wr <;>
        simp_all [dictation_stop, countDone, emit_done_once] <;>
          split <;> simp [countDone]

theorem dictation_stop_done_clear (sid id : String) (he : Bool) (env : StopEnv) :
    countDone id (dictation_stop sid (some ⟨id⟩) false he env).2.2.2.2.1 =
      if (dictation_stop sid (some ⟨id⟩) false he env).2.2.1 then 1 else 0 := by
  obtain ⟨w, fl, wr, stx⟩ := env
  cases hts : trimEmpty sid <;>
    by_cases hid : id = sid <;>
      cases w <;> cases fl <;> cases wr <;>
        simp_all [dictation_stop, countDone, emit_done_once] <;>
          split <;> simp [countDone]

/-- Claim C2: across every termination path, the done event for a session id
is observed exactly once, enforced by the one-way completion flag.  The two
compare-exchange call sites (the terminal call of the stdout reader and the
one in dictation_stop) are serialized in either order; the reader-only case
covers EOF, read error, parse error and sidecar Error without an explicit
stop, and arbitrary stop environments cover the mic_stop write or flush
failure with forced kill, the wait failure, an id mismatch, and the
non-zero-exit path. -/
theorem claim_C2 (id sid : String) (items : List ReadItem) (env : StopEnv)
    (he0 he1 : Bool) :
    countDone id (readerRun id false he0 items).2.2 = 1
  ∧ countDone id
      ((readerRun id false he0 items).2.2 ++
        (dictation_stop sid (some ⟨id⟩) (readerRun id false he0 items).1
          (readerRun id false he0 items).2.1 env).2.2.2.2.1) = 1
  ∧ countDone id
      ((dictation_stop sid (some ⟨id⟩) false he1 env).2.2.2.2.1 ++
        (readerRun id (dictation_stop sid (some ⟨id⟩) false he1 env).2.2.1
          (dictation_stop sid (some ⟨id⟩) false he1 env).2.2.2.1 items).2.2) = 1 := by
  refine ⟨?_, ?_, ?_⟩
  · simpa using countDone_readerRun id false he0 items
  · rw [countDone_append, readerRun_doneFlag, dictation_stop_done_set]
    simpa using countDone_readerRun id false he0 items
  · rw [countDone_append, dictation_stop_done_clear, countDone_readerRun]
    cases (dictation_stop sid (some ⟨id⟩) false he1 env).2.2.1 <;> simp

/-- Claim C9: calling start while a session is still running returns
success, emits exactly one invalid_state error event whose context carries
the active session id, and leaves the slot untouched with no process
spawned or killed. -/
theorem claim_C9 (id sid : String) (env : StartEnv)
    (h1 : trimEmpty id = false) (h2 : env.tryWaitRes = .running) :
    dictation_start id (some ⟨sid⟩) env =
      (.ok (), some ⟨sid⟩,
        [.errorEv id "invalid_state" "Dictation is already running"
          (.obj [("activeDictationId", .str sid)])], []) := by
  simp [dictation_start, h1, h2]

theorem claim_C9_witness :
    dictation_start "d1" (some ⟨"d1"⟩) { envNoSidecar with tryWaitRes := .running } =
      (.ok (), some ⟨"d1"⟩,
        [.errorEv "d1" "invalid_state" "Dictation is already running"
          (.obj [("activeDictationId", .str "d1")])], []) :=
  claim_C9 "d1" "d1" _ (by decide) rfl

/-- Claim C3 is refuted by this run: with a non-empty id, models Ready and
no recognizer executable beside the host binary (no directory entry with the
sidecar prefix), the call fails synchronously and emits no event at all,
instead of returning success with a sidecar_not_found event. -/
theorem claim_C3_counterexample :
    (dictation_start "d1" none envNoSidecar).1 =
      .error ("[audio.dictation] asr-sidecar binary not found in app. "
        ++ "Build it via scripts/build_asr_sidecar.sh")
  ∧ (dictation_start "d1" none envNoSidecar).2.2.1 = [] := by
  exact ⟨rfl, rfl⟩

/-- Claim C3 (amended): when the directory listing beside the host binary
has no entry with the sidecar prefix, start fails synchronously with the
not-found message naming the searched directory and emits no event; the
sidecar_not_found error event together with a successful call occurs only
when a matching directory entry was found but the resolved path fails the
follow-up existence check, and then the event context carries the searched
path. -/
theorem claim_C3_amended :
    (∀ (id : String) (env : StartEnv) (st : AudioModelsStatus) (d exe : List String)
        (entries : List String),
      trimEmpty id = false →
      env.modelsStatus = .ok st → st.isReady = true →
      env.modelsDirRes = .ok d →
      env.currentExe = .ok exe → exe.isEmpty = false →
      env.dirEntries = .ok entries →
      entries.find? (fun n => strStartsWith n "asr-sidecar") = none →
      dictation_start id none env =
        (.error ("[audio.dictation] asr-sidecar binary not found in "
            ++ String.intercalate "/" exe.dropLast
            ++ ". Build it via scripts/build_asr_sidecar.sh"), none, [], []))
  ∧ (∀ (id : String) (env : StartEnv) (st : AudioModelsStatus) (d exe : List String)
        (entries : List String) (name : String),
      trimEmpty id = false →
      env.modelsStatus = .ok st → st.isReady = true →
      env.modelsDirRes = .ok d →
      env.currentExe = .ok exe → exe.isEmpty = false →
      env.dirEntries = .ok entries →
      entries.find? (fun n => strStartsWith n "asr-sidecar") = some name →
      env.pathExists (exe.dropLast ++ [name]) = false →
      dictation_start id none env =
        (.ok (), none,
          [.errorEv id "sidecar_not_found" "asr-sidecar binary not found"
            (.obj [("expectedPath", .str (String.intercalate "/" (exe.dropLast ++ [name])))])],
          [])) := by
  constructor
  · intro id env st d exe entries h0 h1 h2 h3 h4 h5 h6 h7
    simp [dictation_start, dictation_start_core, resolve_asr_sidecar_entry,
      h0, h1, h2, h3, h4, h5, h6, h7]
  · intro id env st d exe entries name h0 h1 h2 h3 h4 h5 h6 h7 h8
    simp [dictation_start, dictation_start_core, resolve_asr_sidecar_entry,
      h0, h1, h2, h3, h4, h5, h6, h7, h8]

theorem claim_C3_amended_witness :
    dictation_start "d1" none envNoSidecar =
      (.error ("[audio.dictation] asr-sidecar binary not found in "
          ++ String.intercalate "/" (["app", "valedesk"] : List String).dropLast
          ++ ". Build it via scripts/build_asr_sidecar.sh"), none, [], [])
  ∧ dictation_start "d1" none envStaleSidecar =
      (.ok (), none,
        [.errorEv "d1" "sidecar_not_found" "asr-sidecar binary not found"
          (.obj [("expectedPath",
            .str (String.intercalate "/"
              ((["app", "valedesk"] : List String).dropLast ++ ["asr-sidecar-aarch64"])))])],
        []) :=
  ⟨claim_C3_amended.1 "d1" envNoSidecar (.ready ["home", "models"] 1 10 [])
      ["home", "models"] ["app", "valedesk"] ["other-file"]
      (by decide) rfl rfl rfl rfl rfl rfl rfl,
   claim_C3_amended.2 "d1" envStaleSidecar (.ready ["home", "models"] 1 10 [])
      ["home", "models"] ["app", "valedesk"] ["asr-sidecar-aarch64"] "asr-sidecar-aarch64"
      (by decide) rfl rfl rfl rfl rfl rfl (by decide) rfl⟩

theorem strStartsWith_of_append (p a b : String) (h : strStartsWith a p = true) :
    strStartsWith (a ++ b) p = true := by
  unfold strStartsWith at *
  rw [String.data_append]
  rw [List.isPrefixOf_iff_prefix] at *
  exact h.trans (a.data.prefix_append b.data)

theorem parse_decode_err_code (line e : String) :
    ∃ m, parse_sidecar_event_line line (.error e) = .error m ∧
      strStartsWith m "[audio.dictation] sidecar_invalid_json" = true := by
  refine ⟨_, rfl, ?_⟩
  apply strStartsWith_of_append
  apply strStartsWith_of_append
  apply strStartsWith_of_append
  decide

theorem parse_schema_err_code (line : String) (j : Json) (m : String)
    (h : parse_sidecar_event_line line (.ok j) = .error m) :
    strStartsWith m "[audio.dictation] sidecar_invalid_schema" = true := by
  unfold parse_sidecar_event_line at h
  repeat' split at h
  all_goals simp_all
  all_goals subst h
  all_goals repeat apply strStartsWith_of_append
  all_goals decide

/-- Claim C5 is refuted by this run: the line is well-formed JSON whose
payload violates the schema (missing discriminant), yet the error event the
reader emits carries the code sidecar_invalid_json, not
sidecar_invalid_schema; the schema diagnosis survives only inside the
context message. -/
theorem claim_C5_counterexample :
    parse_sidecar_event_line "\x7b\x7d" (.ok (.obj [])) =
      .error "[audio.dictation] sidecar_invalid_schema: missing t; line=\x7b\x7d"
  ∧ readerLoop "d1" [.lineOk "\x7b\x7d" (.ok (.obj []))] =
      ([.errorEv "d1" "sidecar_invalid_json" "Failed to parse sidecar stdout line"
          (.obj [("error",
              .str "[audio.dictation] sidecar_invalid_schema: missing t; line=\x7b\x7d"),
            ("line", .str "\x7b\x7d")])], true)
  ∧ "sidecar_invalid_json" ≠ "sidecar_invalid_schema" := by
  exact ⟨rfl, rfl, by decide⟩

/-- Claim C5 (amended): the parse step itself distinguishes transport
corruption from protocol violation, but only in the error message: a decode
failure yields a message tagged sidecar_invalid_json and every failure on a
decoded value (non-object payload, missing or unknown discriminant, missing
required field) yields a message tagged sidecar_invalid_schema.  The
emitted error event, however, always carries the code sidecar_invalid_json
with the distinguishing message in its context, and in either case the
reader stops at that line (the remaining stream is never consumed). -/
theorem claim_C5_amended :
    (∀ (line e : String), ∃ m,
        parse_sidecar_event_line line (.error e) = .error m ∧
        strStartsWith m "[audio.dictation] sidecar_invalid_json" = true)
  ∧ (∀ (line : String) (j : Json) (m : String),
        parse_sidecar_event_line line (.ok j) = .error m →
        strStartsWith m "[audio.dictation] sidecar_invalid_schema" = true)
  ∧ (∀ (id trimmed : String) (decoded : Except String Json) (err : String)
        (rest : List ReadItem),
        trimmed.data.isEmpty = false →
        parse_sidecar_event_line trimmed decoded = .error err →
        readerLoop id (.lineOk trimmed decoded :: rest) =
          ([.errorEv id "sidecar_invalid_json" "Failed to parse sidecar stdout line"
              (.obj [("error", .str err), ("line", .str trimmed)])], true)) := by
  refine ⟨parse_decode_err_code, parse_schema_err_code, ?_⟩
  intro id trimmed decoded err rest h1 h2
  simp [readerLoop, h1, h2]

/-! Helper lemmas about the manifest validation loop. -/

theorem missingOfModel_mem (required : List String) :
    ∀ (models : List ModelSpec) (idx0 i : Nat) (m : ModelSpec),
      models[i]? = some m → required.any (fun k => k == m.key) = true →
      missingOfModel (idx0 + i) m ⊆ collectMissing required idx0 models := by
  intro models
  induction models with
  | nil => intro idx0 i m h; simp at h
  | cons hd tl ih =>
    intro idx0 i m h hreq
    cases i with
    | zero =>
      simp only [List.getElem?_cons_zero, Option.some.injEq] at h
      subst h
      simp only [Nat.add_zero, collectMissing, hreq, if_true]
      exact List.subset_append_left _ _
    | succ n =>
      simp only [List.getElem?_cons_succ] at h
      have := ih (idx0 + 1) n m h hreq
      intro x hx
      have hx2 : x ∈ collectMissing required (idx0 + 1) tl := by
        apply this
        have : idx0 + (n + 1) = idx0 + 1 + n := by omega
        rw [this] at hx
        exact hx
      simp only [collectMissing]
      exact List.mem_append_right _ hx2

theorem missingOfModel_nil_fields (idx0 : Nat) (m : ModelSpec)
    (h : missingOfModel idx0 m = []) :
    trimEmpty m.key = false ∧ trimEmpty m.repo_dirname.raw = false ∧
    trimEmpty m.model_id = false ∧ trimEmpty m.source_page_url = false ∧
    trimEmpty m.macos.revision_sha = false ∧ m.macos.files.isEmpty = false := by
  unfold missingOfModel at h
  refine ⟨?_, ?_, ?_, ?_, ?_, ?_⟩
  · cases hc : trimEmpty m.key
    · rfl
    · rw [hc] at h; simp at h
  · cases hc : trimEmpty m.repo_dirname.raw
    · rfl
    · rw [hc] at h; simp at h
  · cases hc : trimEmpty m.model_id
    · rfl
    · rw [hc] at h; simp at h
  · cases hc : trimEmpty m.source_page_url
    · rfl
    · rw [hc] at h; simp at h
  · cases hc : trimEmpty m.macos.revision_sha
    · rfl
    · rw [hc] at h; simp at h
  · cases hc : m.macos.files.isEmpty
    · rfl
    · rw [hc] at h; simp at h

theorem collectMissing_nil_fields (required : List String) :
    ∀ (models : List ModelSpec) (idx0 : Nat),
      collectMissing required idx0 models = [] →
      ∀ m ∈ models, required.any (fun k => k == m.key) = true →
        trimEmpty m.key = false ∧ trimEmpty m.repo_dirname.raw = false ∧
        trimEmpty m.model_id = false ∧ trimEmpty m.source_page_url = false ∧
        trimEmpty m.macos.revision_sha = false ∧ m.macos.files.isEmpty = false := by
  intro models
  induction models with
  | nil => intro idx0 h m hm; simp at hm
  | cons hd tl ih =>
    intro idx0 h m hm hreq
    simp only [collectMissing, List.append_eq_nil] at h
    obtain ⟨h1, h2⟩ := h
    rcases List.mem_cons.mp hm with hm | hm
    · subst hm
      rw [hreq] at h1
      exact missingOfModel_nil_fields idx0 m (by simpa using h1)
    · exact ih (idx0 + 1) h2 m hm hreq

/-! Helper lemmas about the scan loops. -/

theorem repo_dir_clean (env : ModelsEnv) (rd : PathStr) (base : List String)
    (hbase : env.appDataDir = .ok base) (hcd : ∀ p, env.createDirFails p = false)
    (ht : trimEmpty rd.raw = false) (htr : rd.hasTraversal = false) :
    repo_dir env rd = (.ok ((base ++ ["models"]) ++ rd.names),
      [.mkdirA (base ++ ["models"]), .mkdirA ((base ++ ["models"]) ++ rd.names)]) := by
  simp [repo_dir, models_dir, hbase, hcd, ht, htr]

theorem scanFiles_clean (fs : FSState) (repo : List String) :
    ∀ (files : List ModelFile) (tf pf tb pb : Nat),
      (∀ f ∈ files, f.path.hasTraversal = false) →
      scanFiles fs repo files tf pf tb pb =
        (.ok (files.foldl (fun a _ => satAdd a 1) tf,
          (files.filter (fun f => filePresent fs (repo ++ f.path.names) f.size)).foldl
            (fun a _ => satAdd a 1) pf,
          files.foldl (fun a f => satAdd a f.size) tb,
          (files.filter (fun f => filePresent fs (repo ++ f.path.names) f.size)).foldl
            (fun a f => satAdd a f.size) pb),
        files.map (fun f => MEv.metaReadA (repo ++ f.path.names))) := by
  intro files
  induction files with
  | nil => intro tf pf tb pb h; simp [scanFiles]
  | cons f rest ih =>
    intro tf pf tb pb h
    have hf : f.path.hasTraversal = false := h f (by simp)
    have hrest : ∀ g ∈ rest, g.path.hasTraversal = false :=
      fun g hg => h g (by simp [hg])
    cases hp : filePresent fs (repo ++ f.path.names) f.size
    · simp [scanFiles, hf, hp, ih (satAdd tf 1) pf (satAdd tb f.size) pb hrest]
    · simp [scanFiles, hf, hp,
        ih (satAdd tf 1) (satAdd pf 1) (satAdd tb f.size) (satAdd pb f.size) hrest]

theorem scanModels_mkdir_mem (env : ModelsEnv) (fs : FSState) (required : List String)
    (base : List String)
    (hbase : env.appDataDir = .ok base) (hcd : ∀ p, env.createDirFails p = false) :
    ∀ (models : List ModelSpec) (tf pf tb pb : Nat) (acc : List ModelInstallStatus),
      (∀ m ∈ models, required.any (fun k => k == m.key) = true →
        trimEmpty m.repo_dirname.raw = false ∧ m.repo_dirname.hasTraversal = false ∧
        ∀ f ∈ m.macos.files, f.path.hasTraversal = false) →
      ∀ m ∈ models, required.any (fun k => k == m.key) = true →
        MEv.mkdirA ((base ++ ["models"]) ++ m.repo_dirname.names)
          ∈ (scanModels env fs required models tf pf tb pb acc).2 := by
  intro models
  induction models with
  | nil => intro _ _ _ _ _ _ m hm; simp at hm
  | cons hd tl ih =>
    intro tf pf tb pb acc hclean m hm hreq
    rcases List.mem_cons.mp hm with rfl | hm2
    · obtain ⟨ht, htr, hf⟩ := hclean m (by simp) hreq
      rw [scanModels, hreq]
      simp only [if_true, repo_dir_clean env _ base hbase hcd ht htr,
        scanFiles_clean fs _ _ _ _ _ _ hf]
      simp
    · by_cases hr : required.any (fun k => k == hd.key) = true
      · obtain ⟨ht, htr, hf⟩ := hclean hd (by simp) hr
        have hrest : ∀ g ∈ tl, required.any (fun k => k == g.key) = true →
            trimEmpty g.repo_dirname.raw = false ∧ g.repo_dirname.hasTraversal = false ∧
            ∀ f ∈ g.macos.files, f.path.hasTraversal = false :=
          fun g hg => hclean g (by simp [hg])
        rw [scanModels, hr]
        simp only [if_true, repo_dir_clean env _ base hbase hcd ht htr,
          scanFiles_clean fs _ _ _ _ _ _ hf]
        refine List.mem_append_right _ (ih _ _ _ _ _ hrest m hm2 hreq)
      · have hr2 : required.any (fun k => k == hd.key) = false := by
          cases hc : required.any (fun k => k == hd.key)
          · rfl
          · exact absurd hc hr
        rw [scanModels, hr2]
        simp only [Bool.false_eq_true, if_false]
        have hrest : ∀ g ∈ tl, required.any (fun k => k == g.key) = true →
            trimEmpty g.repo_dirname.raw = false ∧ g.repo_dirname.hasTraversal = false ∧
            ∀ f ∈ g.macos.files, f.path.hasTraversal = false :=
          fun g hg => hclean g (by simp [hg])
        exact ih _ _ _ _ _ hrest m hm2 hreq

theorem buildFiles_clean (fs : FSState) (repo : List String) :
    ∀ (files : List ModelFile) (pb : Nat) (acc : List PendingDownload),
      (∀ f ∈ files, f.path.hasTraversal = false) →
      buildFiles fs repo files pb acc =
        (.ok ((files.filter (fun f => filePresent fs (repo ++ f.path.names) f.size)).foldl
            (fun a f => satAdd a f.size) pb,
          acc ++ (files.filter (fun f => !filePresent fs (repo ++ f.path.names) f.size)).map
            (fun f => ⟨repo ++ f.path.names, f.download_url, f.sha256, f.size⟩)),
        files.map (fun f => MEv.metaReadA (repo ++ f.path.names))) := by
  intro files
  induction files with
  | nil => intro pb acc h; simp [buildFiles]
  | cons f rest ih =>
    intro pb acc h
    have hf : f.path.hasTraversal = false := h f (by simp)
    have hrest : ∀ g ∈ rest, g.path.hasTraversal = false :=
      fun g hg => h g (by simp [hg])
    cases hp : filePresent fs (repo ++ f.path.names) f.size
    · simp [buildFiles, hf, hp,
        ih pb (acc ++ [⟨repo ++ f.path.names, f.download_url, f.sha256, f.size⟩]) hrest]
    · simp [buildFiles, hf, hp, ih (satAdd pb f.size) acc hrest]

theorem filePresent_congr (fs1 fs2 : FSState) (h : ∀ p, fs1.metaOf p = fs2.metaOf p)
    (p : List String) (size : Nat) : filePresent fs1 p size = filePresent fs2 p size := by
  unfold filePresent
  rw [h]

theorem scanFiles_congr (fs1 fs2 : FSState) (h : ∀ p, fs1.metaOf p = fs2.metaOf p)
    (repo : List String) :
    ∀ (files : List ModelFile) (tf pf tb pb : Nat),
      scanFiles fs1 repo files tf pf tb pb = scanFiles fs2 repo files tf pf tb pb := by
  intro files
  induction files with
  | nil => intro tf pf tb pb; simp [scanFiles]
  | cons f rest ih =>
    intro tf pf tb pb
    simp only [scanFiles, filePresent_congr fs1 fs2 h, ih]

theorem scanModels_congr (env : ModelsEnv) (fs1 fs2 : FSState)
    (h : ∀ p, fs1.metaOf p = fs2.metaOf p) (required : List String) :
    ∀ (models : List ModelSpec) (tf pf tb pb : Nat) (acc : List ModelInstallStatus),
      scanModels env fs1 required models tf pf tb pb acc =
        scanModels env fs2 required models tf pf tb pb acc := by
  intro models
  induction models with
  | nil => intro tf pf tb pb acc; simp [scanModels]
  | cons hd tl ih =>
    intro tf pf tb pb acc
    simp only [scanModels, scanFiles_congr fs1 fs2 h, ih]

/-- Claim C4: both the readiness checker and the downloader classify a
manifest file entry as present exactly when a regular file exists at its
resolved path with byte length equal to the manifest-declared size; the
present counts and bytes of the scan, and the skip decisions of the
worklist construction, are exactly the filter by that predicate; and no
hash is computed at readiness time: get_status is invariant under any
change of file contents that preserves metadata. -/
theorem claim_C4 :
    (∀ (fs : FSState) (p : List String) (size : Nat),
      filePresent fs p size = true ↔ PresentSpec fs p size)
  ∧ (∀ (fs : FSState) (repo : List String) (files : List ModelFile) (tf pf tb pb : Nat),
      (∀ f ∈ files, f.path.hasTraversal = false) →
      (scanFiles fs repo files tf pf tb pb).1 =
        .ok (files.foldl (fun a _ => satAdd a 1) tf,
          (files.filter (fun f => filePresent fs (repo ++ f.path.names) f.size)).foldl
            (fun a _ => satAdd a 1) pf,
          files.foldl (fun a f => satAdd a f.size) tb,
          (files.filter (fun f => filePresent fs (repo ++ f.path.names) f.size)).foldl
            (fun a f => satAdd a f.size) pb))
  ∧ (∀ (fs : FSState) (repo : List String) (files : List ModelFile) (pb : Nat)
        (acc : List PendingDownload),
      (∀ f ∈ files, f.path.hasTraversal = false) →
      (buildFiles fs repo files pb acc).1 =
        .ok ((files.filter (fun f => filePresent fs (repo ++ f.path.names) f.size)).foldl
            (fun a f => satAdd a f.size) pb,
          acc ++ (files.filter (fun f => !filePresent fs (repo ++ f.path.names) f.size)).map
            (fun f => ⟨repo ++ f.path.names, f.download_url, f.sha256, f.size⟩)))
  ∧ (∀ (env : ModelsEnv) (required : List String)
        (manifest : Except AudioModelsError ModelManifest) (fs1 fs2 : FSState),
      (∀ p, fs1.metaOf p = fs2.metaOf p) →
      get_status env fs1 required manifest = get_status env fs2 required manifest) := by
  refine ⟨?_, ?_, ?_, ?_⟩
  · intro fs p size
    unfold filePresent FSState.metaOf PresentSpec
    cases hn : fs.nodes p with
    | none => simp
    | some node =>
      cases node with
      | file c => simp [beq_iff_eq]
      | dir => simp
  · intro fs repo files tf pf tb pb h
    rw [scanFiles_clean fs repo files tf pf tb pb h]
  · intro fs repo files pb acc h
    rw [buildFiles_clean fs repo files pb acc h]
  · intro env required manifest fs1 fs2 h
    unfold get_status
    simp only [scanModels_congr env fs1 fs2 h]

theorem claim_C4_witness :
    (filePresent fsA ["home", "models", "repoA", "model.bin"] 3 = true ↔
      PresentSpec fsA ["home", "models", "repoA", "model.bin"] 3)
  ∧ (scanFiles fsA ["home", "models", "repoA"] [fileA] 0 0 0 0).1 =
      .ok ([fileA].foldl (fun a _ => satAdd a 1) 0,
        ([fileA].filter (fun f =>
          filePresent fsA (["home", "models", "repoA"] ++ f.path.names) f.size)).foldl
          (fun a _ => satAdd a 1) 0,
        [fileA].foldl (fun a f => satAdd a f.size) 0,
        ([fileA].filter (fun f =>
          filePresent fsA (["home", "models", "repoA"] ++ f.path.names) f.size)).foldl
          (fun a f => satAdd a f.size) 0)
  ∧ (buildFiles fsA ["home", "models", "repoA"] [fileA] 0 []).1 =
      .ok (([fileA].filter (fun f =>
          filePresent fsA (["home", "models", "repoA"] ++ f.path.names) f.size)).foldl
          (fun a f => satAdd a f.size) 0,
        [] ++ ([fileA].filter (fun f =>
          !filePresent fsA (["home", "models", "repoA"] ++ f.path.names) f.size)).map
          (fun f => ⟨["home", "models", "repoA"] ++ f.path.names,
            f.download_url, f.sha256, f.size⟩))
  ∧ get_status envMOk fsA REQUIRED_MODEL_KEYS (.ok manOk) =
      get_status envMOk fsA2 REQUIRED_MODEL_KEYS (.ok manOk) :=
  ⟨claim_C4.1 fsA _ 3,
   claim_C4.2.1 fsA _ [fileA] 0 0 0 0 (by decide),
   claim_C4.2.2.1 fsA _ [fileA] 0 [] (by decide),
   claim_C4.2.2.2 envMOk REQUIRED_MODEL_KEYS (.ok manOk) fsA fsA2 (by
     intro p
     unfold FSState.metaOf fsA fsA2
     by_cases hp : p = ["home", "models", "repoA", "model.bin"] <;> simp [hp])⟩

theorem scanFiles_traversal (fs : FSState) (repo : List String) :
    ∀ (files : List ModelFile) (tf pf tb pb : Nat),
      (∃ f ∈ files, f.path.hasTraversal = true) →
      (scanFiles fs repo files tf pf tb pb).1 =
        .error ⟨"manifest_invalid", "Manifest contains an invalid relative path"⟩ := by
  intro files
  induction files with
  | nil => intro tf pf tb pb hex; simp at hex
  | cons f rest ih =>
    intro tf pf tb pb hex
    obtain ⟨g, hg, hgt⟩ := hex
    cases htr : f.path.hasTraversal
    · rcases List.mem_cons.mp hg with rfl | hg2
      · rw [htr] at hgt; cases hgt
      · have hrec := fun tf pf tb pb => ih tf pf tb pb ⟨g, hg2, hgt⟩
        cases hp : filePresent fs (repo ++ f.path.names) f.size <;>
          simp_all [scanFiles]
    · simp [scanFiles, htr]

theorem scanModels_traversal (env : ModelsEnv) (fs : FSState) (required : List String)
    (base : List String)
    (hbase : env.appDataDir = .ok base) (hcd : ∀ p, env.createDirFails p = false) :
    ∀ (models : List ModelSpec) (tf pf tb pb : Nat) (acc : List ModelInstallStatus),
      (∀ m ∈ models, required.any (fun k => k == m.key) = true →
        trimEmpty m.repo_dirname.raw = false ∧ m.repo_dirname.hasTraversal = false) →
      (∃ m ∈ models, required.any (fun k => k == m.key) = true ∧
        ∃ f ∈ m.macos.files, f.path.hasTraversal = true) →
      (scanModels env fs required models tf pf tb pb acc).1 =
        .error ⟨"manifest_invalid", "Manifest contains an invalid relative path"⟩ := by
  intro models
  induction models with
  | nil => intro _ _ _ _ _ _ hex; simp at hex
  | cons hd tl ih =>
    intro tf pf tb pb acc hclean hex
    have hrest : ∀ g ∈ tl, required.any (fun k => k == g.key) = true →
        trimEmpty g.repo_dirname.raw = false ∧ g.repo_dirname.hasTraversal = false :=
      fun g hg => hclean g (by simp [hg])
    by_cases hr : required.any (fun k => k == hd.key) = true
    · obtain ⟨ht, htr⟩ := hclean hd (by simp) hr
      by_cases hhd : ∃ f ∈ hd.macos.files, f.path.hasTraversal = true
      · rw [scanModels, hr]
        simp only [if_true, repo_dir_clean env _ base hbase hcd ht htr]
        rcases hsf : scanFiles fs (base ++ ["models"] ++ hd.repo_dirname.names)
            hd.macos.files 0 0 0 0 with ⟨r, tr2⟩
        have := scanFiles_traversal fs (base ++ ["models"] ++ hd.repo_dirname.names)
          hd.macos.files 0 0 0 0 hhd
        rw [hsf] at this
        simp at this
        subst this
        simp
      · have hfcl : ∀ f ∈ hd.macos.files, f.path.hasTraversal = false := by
          intro f hf
          cases hc : f.path.hasTraversal
          · rfl
          · exact absurd ⟨f, hf, hc⟩ hhd
        have hex2 : ∃ m ∈ tl, required.any (fun k => k == m.key) = true ∧
            ∃ f ∈ m.macos.files, f.path.hasTraversal = true := by
          obtain ⟨m, hm, hmr, hmf⟩ := hex
          rcases List.mem_cons.mp hm with rfl | hm2
          · exact absurd hmf hhd
          · exact ⟨m, hm2, hmr, hmf⟩
        rw [scanModels, hr]
        simp only [if_true, repo_dir_clean env _ base hbase hcd ht htr,
          scanFiles_clean fs _ _ _ _ _ _ hfcl]
        simpa using ih _ _ _ _ _ hrest hex2
    · have hr2 : required.any (fun k => k == hd.key) = false := by
        cases hc : required.any (fun k => k == hd.key)
        · rfl
        · exact absurd hc hr
      have hex2 : ∃ m ∈ tl, required.any (fun k => k == m.key) = true ∧
          ∃ f ∈ m.macos.files, f.path.hasTraversal = true := by
        obtain ⟨m, hm, hmr, hmf⟩ := hex
        rcases List.mem_cons.mp hm with rfl | hm2
        · exact absurd hmr hr
        · exact ⟨m, hm2, hmr, hmf⟩
      rw [scanModels, hr2]
      simp only [Bool.false_eq_true, if_false]
      exact ih _ _ _ _ _ hrest hex2

theorem names_no_parent (p : PathStr) (htr : p.hasTraversal = false) (hwf : p.wf) :
    ".." ∉ p.names := by
  intro hmem
  obtain ⟨c, hc, hcn⟩ := List.mem_map.mp hmem
  cases c with
  | parent =>
    unfold PathStr.hasTraversal at htr
    simp at htr
    exact absurd (htr.2 _ hc) (by simp)
  | normal s =>
    exact hwf _ hc (by simp) hcn

theorem fsAccesses_nil : fsAccesses [] = [] := rfl

theorem fsAccesses_append (a b : List MEv) :
    fsAccesses (a ++ b) = fsAccesses a ++ fsAccesses b := by
  simp [fsAccesses]

theorem fsAccesses_cons_meta (p : List String) (tr : List MEv) :
    fsAccesses (.metaReadA p :: tr) = p :: fsAccesses tr := by
  simp [fsAccesses]

theorem fsAccesses_cons_mkdir (p : List String) (tr : List MEv) :
    fsAccesses (.mkdirA p :: tr) = p :: fsAccesses tr := by
  simp [fsAccesses]

theorem scanFiles_accesses (fs : FSState) (repo : List String) :
    ∀ (files : List ModelFile) (tf pf tb pb : Nat) (q : List String),
      q ∈ fsAccesses (scanFiles fs repo files tf pf tb pb).2 →
      ∃ f ∈ files, f.path.hasTraversal = false ∧ q = repo ++ f.path.names := by
  intro files
  induction files with
  | nil => intro tf pf tb pb q hq; simp [scanFiles, fsAccesses] at hq
  | cons f rest ih =>
    intro tf pf tb pb q hq
    cases htr : f.path.hasTraversal
    · cases hp : filePresent fs (repo ++ f.path.names) f.size
      · rcases hsf : scanFiles fs repo rest (satAdd tf 1) pf (satAdd tb f.size) pb
          with ⟨r, tr⟩
        rw [scanFiles] at hq
        simp only [htr, Bool.false_eq_true, if_false, hp, hsf] at hq
        rw [fsAccesses_cons_meta] at hq
        rcases List.mem_cons.mp hq with rfl | hq2
        · exact ⟨f, by simp, htr, rfl⟩
        · obtain ⟨g, hg, hgt, hge⟩ :=
            ih (satAdd tf 1) pf (satAdd tb f.size) pb q (by rw [hsf]; exact hq2)
          exact ⟨g, by simp [hg], hgt, hge⟩
      · rcases hsf : scanFiles fs repo rest (satAdd tf 1) (satAdd pf 1)
          (satAdd tb f.size) (satAdd pb f.size) with ⟨r, tr⟩
        rw [scanFiles] at hq
        simp only [htr, Bool.false_eq_true, if_false, hp, eq_self_iff_true, if_true, hsf] at hq
        rw [fsAccesses_cons_meta] at hq
        rcases List.mem_cons.mp hq with rfl | hq2
        · exact ⟨f, by simp, htr, rfl⟩
        · obtain ⟨g, hg, hgt, hge⟩ :=
            ih (satAdd tf 1) (satAdd pf 1) (satAdd tb f.size) (satAdd pb f.size) q
              (by rw [hsf]; exact hq2)
          exact ⟨g, by simp [hg], hgt, hge⟩
    · rw [scanFiles] at hq
      simp [htr, fsAccesses] at hq

theorem scanModels_under_root (env : ModelsEnv) (fs : FSState) (required : List String)
    (base : List String)
    (hbase : env.appDataDir = .ok base) (hcd : ∀ p, env.createDirFails p = false) :
    ∀ (models : List ModelSpec) (tf pf tb pb : Nat) (acc : List ModelInstallStatus),
      (∀ m ∈ models, required.any (fun k => k == m.key) = true →
        trimEmpty m.repo_dirname.raw = false ∧ m.repo_dirname.hasTraversal = false ∧
        m.repo_dirname.wf ∧ ∀ f ∈ m.macos.files, f.path.wf) →
      ∀ q ∈ fsAccesses (scanModels env fs required models tf pf tb pb acc).2,
        UnderRoot (base ++ ["models"]) q := by
  intro models
  induction models with
  | nil => intro _ _ _ _ _ _ q hq; simp [scanModels, fsAccesses] at hq
  | cons hd tl ih =>
    intro tf pf tb pb acc hclean q hq
    have hrest : ∀ g ∈ tl, required.any (fun k => k == g.key) = true →
        trimEmpty g.repo_dirname.raw = false ∧ g.repo_dirname.hasTraversal = false ∧
        g.repo_dirname.wf ∧ ∀ f ∈ g.macos.files, f.path.wf :=
      fun g hg => hclean g (by simp [hg])
    by_cases hr : required.any (fun k => k == hd.key) = true
    · obtain ⟨ht, htr, hwf, hfwf⟩ := hclean hd (by simp) hr
      have hnop : ".." ∉ hd.repo_dirname.names := names_no_parent _ htr hwf
      rw [scanModels, hr] at hq
      simp only [if_true, repo_dir_clean env _ base hbase hcd ht htr] at hq
      rcases hsf : scanFiles fs (base ++ ["models"] ++ hd.repo_dirname.names)
          hd.macos.files 0 0 0 0 with ⟨r, tr2⟩
      rw [hsf] at hq
      have hfile : ∀ p ∈ fsAccesses tr2, UnderRoot (base ++ ["models"]) p := by
        intro p hp
        have hp2 : p ∈ fsAccesses (scanFiles fs (base ++ ["models"] ++ hd.repo_dirname.names)
            hd.macos.files 0 0 0 0).2 := by rw [hsf]; exact hp
        obtain ⟨f, hf, hft, hfe⟩ := scanFiles_accesses fs _ hd.macos.files 0 0 0 0 p hp2
        refine ⟨hd.repo_dirname.names ++ f.path.names, by simp [hfe], ?_⟩
        intro hmem
        rcases List.mem_append.mp hmem with hmem | hmem
        · exact hnop hmem
        · exact names_no_parent _ hft (hfwf f hf) hmem
      have hroot : UnderRoot (base ++ ["models"]) (base ++ ["models"]) := ⟨[], by simp, by simp⟩
      have hrepo : UnderRoot (base ++ ["models"]) (base ++ ["models"] ++ hd.repo_dirname.names) :=
        ⟨hd.repo_dirname.names, by simp, hnop⟩
      cases r with
      | error e =>
        have hq3 : q ∈ (base ++ ["models"]) ::
            ((base ++ ["models"] ++ hd.repo_dirname.names) :: fsAccesses tr2) := by
          simpa [fsAccesses_append, fsAccesses_cons_mkdir, fsAccesses_cons_meta,
            fsAccesses_nil] using hq
        rcases List.mem_cons.mp hq3 with rfl | hq3
        · exact hroot
        rcases List.mem_cons.mp hq3 with rfl | hq3
        · exact hrepo
        · exact hfile q hq3
      | ok v =>
        obtain ⟨mtf, mpf, mtb, mpb⟩ := v
        have hq2 : q ∈ fsAccesses
            ([MEv.mkdirA (base ++ ["models"]),
              MEv.mkdirA (base ++ ["models"] ++ hd.repo_dirname.names)] ++ tr2 ++
              (scanModels env fs required tl (satAdd tf mtf) (satAdd pf mpf)
                (satAdd tb mtb) (satAdd pb mpb)
                (acc ++ [⟨hd.key, hd.repo_dirname.raw, hd.macos.revision_sha,
                  mtf, mpf, mtb, mpb⟩])).2) := hq
        rcases hsm2 : scanModels env fs required tl (satAdd tf mtf) (satAdd pf mpf)
            (satAdd tb mtb) (satAdd pb mpb)
            (acc ++ [⟨hd.key, hd.repo_dirname.raw, hd.macos.revision_sha,
              mtf, mpf, mtb, mpb⟩]) with ⟨r3, tr3⟩
        rw [hsm2] at hq2
        have hq3 : q ∈ (base ++ ["models"]) ::
            ((base ++ ["models"] ++ hd.repo_dirname.names) ::
              (fsAccesses tr2 ++ fsAccesses tr3)) := by
          simpa [fsAccesses_append, fsAccesses_cons_mkdir, fsAccesses_cons_meta,
            fsAccesses_nil] using hq2
        rcases List.mem_cons.mp hq3 with rfl | hq3
        · exact hroot
        rcases List.mem_cons.mp hq3 with rfl | hq3
        · exact hrepo
        rcases List.mem_append.mp hq3 with hq3 | hq3
        · exact hfile q hq3
        · exact ih _ _ _ _ _ hrest q (by rw [hsm2]; exact hq3)
    · have hr2 : required.any (fun k => k == hd.key) = false := by
        cases hc : required.any (fun k => k == hd.key)
        · rfl
        · exact absurd hc hr
      rw [scanModels, hr2] at hq
      simp only [Bool.false_eq_true, if_false] at hq
      exact ih _ _ _ _ _ hrest q hq

theorem buildFiles_traversal (fs : FSState) (repo : List String) :
    ∀ (files : List ModelFile) (pb : Nat) (acc : List PendingDownload),
      (∃ f ∈ files, f.path.hasTraversal = true) →
      (buildFiles fs repo files pb acc).1 =
        .error ("manifest_invalid", "Manifest contains an invalid relative path") := by
  intro files
  induction files with
  | nil => intro pb acc hex; simp at hex
  | cons f rest ih =>
    intro pb acc hex
    obtain ⟨g, hg, hgt⟩ := hex
    cases htr : f.path.hasTraversal
    · rcases List.mem_cons.mp hg with rfl | hg2
      · rw [htr] at hgt; cases hgt
      · have hrec := fun pb acc => ih pb acc ⟨g, hg2, hgt⟩
        cases hp : filePresent fs (repo ++ f.path.names) f.size <;>
          simp_all [buildFiles]
    · simp [buildFiles, htr]

theorem buildFiles_accesses (fs : FSState) (repo : List String) :
    ∀ (files : List ModelFile) (pb : Nat) (acc : List PendingDownload) (q : List String),
      q ∈ fsAccesses (buildFiles fs repo files pb acc).2 →
      ∃ f ∈ files, f.path.hasTraversal = false ∧ q = repo ++ f.path.names := by
  intro files
  induction files with
  | nil => intro pb acc q hq; simp [buildFiles, fsAccesses] at hq
  | cons f rest ih =>
    intro pb acc q hq
    cases htr : f.path.hasTraversal
    · cases hp : filePresent fs (repo ++ f.path.names) f.size
      · rcases hsf : buildFiles fs repo rest pb
          (acc ++ [⟨repo ++ f.path.names, f.download_url, f.sha256, f.size⟩]) with ⟨r, tr⟩
        rw [buildFiles] at hq
        simp only [htr, Bool.false_eq_true, if_false, hp, hsf] at hq
        rw [fsAccesses_cons_meta] at hq
        rcases List.mem_cons.mp hq with rfl | hq2
        · exact ⟨f, by simp, htr, rfl⟩
        · obtain ⟨g, hg, hgt, hge⟩ := ih pb _ q (by rw [hsf]; exact hq2)
          exact ⟨g, by simp [hg], hgt, hge⟩
      · rcases hsf : buildFiles fs repo rest (satAdd pb f.size) acc with ⟨r, tr⟩
        rw [buildFiles] at hq
        simp only [htr, Bool.false_eq_true, if_false, hp, eq_self_iff_true, if_true, hsf] at hq
        rw [fsAccesses_cons_meta] at hq
        rcases List.mem_cons.mp hq with rfl | hq2
        · exact ⟨f, by simp, htr, rfl⟩
        · obtain ⟨g, hg, hgt, hge⟩ := ih (satAdd pb f.size) acc q (by rw [hsf]; exact hq2)
          exact ⟨g, by simp [hg], hgt, hge⟩
    · rw [buildFiles] at hq
      simp [htr, fsAccesses] at hq

theorem buildPending_traversal (env : ModelsEnv) (fs : FSState) (base : List String)
    (hbase : env.appDataDir = .ok base) (hcd : ∀ p, env.createDirFails p = false) :
    ∀ (models : List ModelSpec) (pb : Nat) (acc : List PendingDownload),
      (∀ m ∈ models, REQUIRED_MODEL_KEYS.any (fun k => k == m.key) = true →
        trimEmpty m.repo_dirname.raw = false ∧ m.repo_dirname.hasTraversal = false ∧
        m.macos.files.isEmpty = false) →
      (∃ m ∈ models, REQUIRED_MODEL_KEYS.any (fun k => k == m.key) = true ∧
        ∃ f ∈ m.macos.files, f.path.hasTraversal = true) →
      (buildPending env fs models pb acc).1 =
        .error ("manifest_invalid", "Manifest contains an invalid relative path") := by
  intro models
  induction models with
  | nil => intro _ _ _ hex; simp at hex
  | cons hd tl ih =>
    intro pb acc hclean hex
    have hrest : ∀ g ∈ tl, REQUIRED_MODEL_KEYS.any (fun k => k == g.key) = true →
        trimEmpty g.repo_dirname.raw = false ∧ g.repo_dirname.hasTraversal = false ∧
        g.macos.files.isEmpty = false :=
      fun g hg => hclean g (by simp [hg])
    by_cases hr : REQUIRED_MODEL_KEYS.any (fun k => k == hd.key) = true
    · obtain ⟨ht, htr, hne⟩ := hclean hd (by simp) hr
      by_cases hhd : ∃ f ∈ hd.macos.files, f.path.hasTraversal = true
      · rw [buildPending, hr]
        simp only [if_true, hne, Bool.false_eq_true, if_false,
          repo_dir_clean env _ base hbase hcd ht htr]
        rcases hsf : buildFiles fs (base ++ ["models"] ++ hd.repo_dirname.names)
            hd.macos.files pb acc with ⟨r, tr2⟩
        have := buildFiles_traversal fs (base ++ ["models"] ++ hd.repo_dirname.names)
          hd.macos.files pb acc hhd
        rw [hsf] at this
        simp at this
        subst this
        simp
      · have hfcl : ∀ f ∈ hd.macos.files, f.path.hasTraversal = false := by
          intro f hf
          cases hc : f.path.hasTraversal
          · rfl
          · exact absurd ⟨f, hf, hc⟩ hhd
        have hex2 : ∃ m ∈ tl, REQUIRED_MODEL_KEYS.any (fun k => k == m.key) = true ∧
            ∃ f ∈ m.macos.files, f.path.hasTraversal = true := by
          obtain ⟨m, hm, hmr, hmf⟩ := hex
          rcases List.mem_cons.mp hm with rfl | hm2
          · exact absurd hmf hhd
          · exact ⟨m, hm2, hmr, hmf⟩
        rw [buildPending, hr]
        simp only [if_true, hne, Bool.false_eq_true, if_false,
          repo_dir_clean env _ base hbase hcd ht htr,
          buildFiles_clean fs _ _ _ _ hfcl]
        simpa using ih _ _ hrest hex2
    · have hr2 : REQUIRED_MODEL_KEYS.any (fun k => k == hd.key) = false := by
        cases hc : REQUIRED_MODEL_KEYS.any (fun k => k == hd.key)
        · rfl
        · exact absurd hc hr
      have hex2 : ∃ m ∈ tl, REQUIRED_MODEL_KEYS.any (fun k => k == m.key) = true ∧
          ∃ f ∈ m.macos.files, f.path.hasTraversal = true := by
        obtain ⟨m, hm, hmr, hmf⟩ := hex
        rcases List.mem_cons.mp hm with rfl | hm2
        · rw [hr2] at hmr; cases hmr
        · exact ⟨m, hm2, hmr, hmf⟩
      rw [buildPending, hr2]
      simp only [Bool.false_eq_true, if_false]
      exact ih _ _ hrest hex2

theorem buildPending_under_root (env : ModelsEnv) (fs : FSState) (base : List String)
    (hbase : env.appDataDir = .ok base) (hcd : ∀ p, env.createDirFails p = false) :
    ∀ (models : List ModelSpec) (pb : Nat) (acc : List PendingDownload),
      (∀ m ∈ models, REQUIRED_MODEL_KEYS.any (fun k => k == m.key) = true →
        trimEmpty m.repo_dirname.raw = false ∧ m.repo_dirname.hasTraversal = false ∧
        m.repo_dirname.wf ∧ ∀ f ∈ m.macos.files, f.path.wf) →
      ∀ q ∈ fsAccesses (buildPending env fs models pb acc).2,
        UnderRoot (base ++ ["models"]) q := by
  intro models
  induction models with
  | nil => intro _ _ _ q hq; simp [buildPending, fsAccesses] at hq
  | cons hd tl ih =>
    intro pb acc hclean q hq
    have hrest : ∀ g ∈ tl, REQUIRED_MODEL_KEYS.any (fun k => k == g.key) = true →
        trimEmpty g.repo_dirname.raw = false ∧ g.repo_dirname.hasTraversal = false ∧
        g.repo_dirname.wf ∧ ∀ f ∈ g.macos.files, f.path.wf :=
      fun g hg => hclean g (by simp [hg])
    by_cases hr : REQUIRED_MODEL_KEYS.any (fun k => k == hd.key) = true
    · obtain ⟨ht, htr, hwf, hfwf⟩ := hclean hd (by simp) hr
      have hnop : ".." ∉ hd.repo_dirname.names := names_no_parent _ htr hwf
      cases hne : hd.macos.files.isEmpty
      · rw [buildPending, hr] at hq
        simp only [if_true, hne, Bool.false_eq_true, if_false,
          repo_dir_clean env _ base hbase hcd ht htr] at hq
        rcases hsf : buildFiles fs (base ++ ["models"] ++ hd.repo_dirname.names)
            hd.macos.files pb acc with ⟨r, tr2⟩
        rw [hsf] at hq
        have hfile : ∀ p ∈ fsAccesses tr2, UnderRoot (base ++ ["models"]) p := by
          intro p hp
          have hp2 : p ∈ fsAccesses (buildFiles fs
              (base ++ ["models"] ++ hd.repo_dirname.names) hd.macos.files pb acc).2 := by
            rw [hsf]; exact hp
          obtain ⟨f, hf, hft, hfe⟩ := buildFiles_accesses fs _ hd.macos.files pb acc p hp2
          refine ⟨hd.repo_dirname.names ++ f.path.names, by simp [hfe], ?_⟩
          intro hmem
          rcases List.mem_append.mp hmem with hmem | hmem
          · exact hnop hmem
          · exact names_no_parent _ hft (hfwf f hf) hmem
        have hroot : UnderRoot (base ++ ["models"]) (base ++ ["models"]) :=
          ⟨[], by simp, by simp⟩
        have hrepo : UnderRoot (base ++ ["models"])
            (base ++ ["models"] ++ hd.repo_dirname.names) :=
          ⟨hd.repo_dirname.names, by simp, hnop⟩
        cases r with
        | error e =>
          have hq3 : q ∈ (base ++ ["models"]) ::
              ((base ++ ["models"] ++ hd.repo_dirname.names) :: fsAccesses tr2) := by
            simpa [fsAccesses_append, fsAccesses_cons_mkdir, fsAccesses_cons_meta,
              fsAccesses_nil] using hq
          rcases List.mem_cons.mp hq3 with rfl | hq3
          · exact hroot
          rcases List.mem_cons.mp hq3 with rfl | hq3
          · exact hrepo
          · exact hfile q hq3
        | ok v =>
          obtain ⟨pb1, acc1⟩ := v
          have hq2 : q ∈ fsAccesses
              ([MEv.mkdirA (base ++ ["models"]),
                MEv.mkdirA (base ++ ["models"] ++ hd.repo_dirname.names)] ++ tr2 ++
                (buildPending env fs tl pb1 acc1).2) := hq
          rcases hbp : buildPending env fs tl pb1 acc1 with ⟨r3, tr3⟩
          rw [hbp] at hq2
          have hq3 : q ∈ (base ++ ["models"]) ::
              ((base ++ ["models"] ++ hd.repo_dirname.names) ::
                (fsAccesses tr2 ++ fsAccesses tr3)) := by
            simpa [fsAccesses_append, fsAccesses_cons_mkdir, fsAccesses_cons_meta,
              fsAccesses_nil] using hq2
          rcases List.mem_cons.mp hq3 with rfl | hq3
          · exact hroot
          rcases List.mem_cons.mp hq3 with rfl | hq3
          · exact hrepo
          rcases List.mem_append.mp hq3 with hq3 | hq3
          · exact hfile q hq3
          · exact ih pb1 acc1 hrest q (by rw [hbp]; exact hq3)
      · rw [buildPending, hr] at hq
        simp [hne, fsAccesses] at hq
    · have hr2 : REQUIRED_MODEL_KEYS.any (fun k => k == hd.key) = false := by
        cases hc : REQUIRED_MODEL_KEYS.any (fun k => k == hd.key)
        · rfl
        · exact absurd hc hr
      rw [buildPending, hr2] at hq
      simp only [Bool.false_eq_true, if_false] at hq
      exact ih pb acc hrest q hq

theorem get_status_clean_shape (env : ModelsEnv) (fs : FSState) (required : List String)
    (man : ModelManifest) (base : List String)
    (h1 : required.isEmpty = false)
    (h2 : man.models.isEmpty = false)
    (h3 : required.all (fun k => man.models.any (fun m => m.key == k)) = true)
    (hmiss : collectMissing required 0 man.models = [])
    (hbase : env.appDataDir = .ok base)
    (hcd : env.createDirFails (base ++ ["models"]) = false) :
    get_status env fs required (.ok man) =
      (match (scanModels env fs required man.models 0 0 0 0 []).1 with
       | .error e => .error e
       | .ok (tf, pf, tb, pb, ms) =>
         if pf ≠ tf then .ok (.notInstalled (base ++ ["models"]) tf pf tb pb ms)
         else .ok (.ready (base ++ ["models"]) tf tb ms),
       MEv.mkdirA (base ++ ["models"]) :: (scanModels env fs required man.models 0 0 0 0 []).2) := by
  have hmd : models_dir env = (.ok (base ++ ["models"]), [.mkdirA (base ++ ["models"])]) := by
    simp [models_dir, hbase, hcd]
  rcases hsm : scanModels env fs required man.models 0 0 0 0 [] with ⟨r, tr2⟩
  cases r with
  | error e => simp [get_status, h1, h2, h3, hmiss, hmd, hsm]
  | ok v =>
    obtain ⟨tf, pf, tb, pb, ms⟩ := v
    by_cases hpf : pf ≠ tf
    · simp [get_status, h1, h2, h3, hmiss, hmd, hsm, hpf]
    · simp [get_status, h1, h2, h3, hmiss, hmd, hsm, hpf]

/-- Claim C10 is refuted by this run: a readiness query that fails manifest
validation returns before resolving the models directory, so the call has no
filesystem side effect at all: the access trace is empty and no directory is
created. -/
theorem claim_C10_counterexample :
    get_status envMOk fsEmpty REQUIRED_MODEL_KEYS (.ok manIncomplete) =
      (.ok (.manifestIncomplete
        "Model manifest is missing required fields to determine readiness"
        ["models[1].macos.files"]), []) := by
  rfl

theorem scanModels_skip (env : ModelsEnv) (fs : FSState) (required : List String) :
    ∀ (pre ms : List ModelSpec) (tf pf tb pb : Nat) (acc : List ModelInstallStatus),
      (∀ q ∈ pre, required.any (fun k => k == q.key) = false) →
      scanModels env fs required (pre ++ ms) tf pf tb pb acc =
        scanModels env fs required ms tf pf tb pb acc := by
  intro pre
  induction pre with
  | nil => intro ms tf pf tb pb acc h; rfl
  | cons q t ih =>
    intro ms tf pf tb pb acc h
    have hq : required.any (fun k => k == q.key) = false := h q (List.mem_cons_self q t)
    rw [List.cons_append, scanModels, hq]
    simp only [Bool.false_eq_true, if_false]
    exact ih ms tf pf tb pb acc (fun x hx => h x (List.mem_cons_of_mem q hx))

theorem get_status_no_access (env : ModelsEnv) (fs : FSState)
    (req : List String) (manifest : Except AudioModelsError ModelManifest)
    (h : req.isEmpty = true ∨ (∃ e, manifest = .error e) ∨
      (∃ man2, manifest = .ok man2 ∧ (man2.models.isEmpty = true ∨
        req.all (fun k => man2.models.any (fun m2 => m2.key == k)) = false ∨
        (collectMissing req 0 man2.models).isEmpty = false))) :
    (get_status env fs req manifest).2 = [] := by
  rcases h with hreq | ⟨e, he⟩ | ⟨man2, hm, hcase⟩
  · simp [get_status, hreq]
  · subst he
    cases hre : req.isEmpty
    · simp [get_status, hre]
    · simp [get_status, hre]
  · subst hm
    cases hre : req.isEmpty
    · rcases hcase with h5 | h5 | h5
      · simp [get_status, hre, h5]
      · cases hme : man2.models.isEmpty
        · simp [get_status, hre, hme, h5]
        · simp [get_status, hre, hme]
      · cases hme : man2.models.isEmpty
        · cases hall : req.all (fun k => man2.models.any (fun m2 => m2.key == k))
          · simp [get_status, hre, hme, hall]
          · simp [get_status, hre, hme, hall, h5]
        · simp [get_status, hre, hme]
    · simp [get_status, hre]

/-- Claim C10 (amended): every call to get_status that passes manifest
validation attempts creation of the models directory and of each required
model repo subdirectory as it scans; a resolution failure surfaces as the
hard error path_resolve_failed, and a creation failure - of the models
directory or of a required model repo subdirectory - as the hard error
io_failed, never as a NotInstalled classification; and every call that
fails an earlier validation step (empty required key list, manifest load
error, empty model list, a missing required key, or incomplete manifest
fields) performs no filesystem access at all. -/
theorem claim_C10_amended (env : ModelsEnv) (fs : FSState) (required : List String)
    (man : ModelManifest) (base : List String)
    (h1 : required.isEmpty = false)
    (h2 : man.models.isEmpty = false)
    (h3 : required.all (fun k => man.models.any (fun m => m.key == k)) = true)
    (hmiss : collectMissing required 0 man.models = []) :
    (∀ msg, env.appDataDir = .error msg →
      get_status env fs required (.ok man) = (.error ⟨"path_resolve_failed", msg⟩, []))
  ∧ (env.appDataDir = .ok base → env.createDirFails (base ++ ["models"]) = true →
      get_status env fs required (.ok man) =
        (.error ⟨"io_failed", "Failed to create models dir"⟩, [.mkdirA (base ++ ["models"])]))
  ∧ (env.appDataDir = .ok base → (∀ p, env.createDirFails p = false) →
      (∀ m ∈ man.models, required.any (fun k => k == m.key) = true →
        m.repo_dirname.hasTraversal = false ∧
        ∀ f ∈ m.macos.files, f.path.hasTraversal = false) →
      MEv.mkdirA (base ++ ["models"]) ∈ (get_status env fs required (.ok man)).2
      ∧ ∀ m ∈ man.models, required.any (fun k => k == m.key) = true →
          MEv.mkdirA ((base ++ ["models"]) ++ m.repo_dirname.names)
            ∈ (get_status env fs required (.ok man)).2)
  ∧ (env.appDataDir = .ok base → env.createDirFails (base ++ ["models"]) = false →
      ∀ (pre : List ModelSpec) (m : ModelSpec) (rest : List ModelSpec),
        man.models = pre ++ m :: rest →
        (∀ q ∈ pre, required.any (fun k => k == q.key) = false) →
        required.any (fun k => k == m.key) = true →
        trimEmpty m.repo_dirname.raw = false →
        m.repo_dirname.hasTraversal = false →
        env.createDirFails ((base ++ ["models"]) ++ m.repo_dirname.names) = true →
        (get_status env fs required (.ok man)).1 =
          .error ⟨"io_failed", "Failed to create model repo dir"⟩)
  ∧ (∀ (req : List String) (manifest : Except AudioModelsError ModelManifest),
      req.isEmpty = true ∨ (∃ e, manifest = .error e) ∨
        (∃ man2, manifest = .ok man2 ∧ (man2.models.isEmpty = true ∨
          req.all (fun k => man2.models.any (fun m2 => m2.key == k)) = false ∨
          (collectMissing req 0 man2.models).isEmpty = false)) →
      (get_status env fs req manifest).2 = []) := by
  refine ⟨?_, ?_, ?_, ?_, ?_⟩
  · intro msg hmsg
    simp [get_status, h1, h2, h3, hmiss, models_dir, hmsg]
  · intro hbase hfail
    simp [get_status, h1, h2, h3, hmiss, models_dir, hbase, hfail]
  · intro hbase hcd hclean
    have hclean2 : ∀ m ∈ man.models, required.any (fun k => k == m.key) = true →
        trimEmpty m.repo_dirname.raw = false ∧ m.repo_dirname.hasTraversal = false ∧
        ∀ f ∈ m.macos.files, f.path.hasTraversal = false := by
      intro m hm hreq
      obtain ⟨a, b⟩ := hclean m hm hreq
      have hfields := collectMissing_nil_fields required man.models 0 hmiss m hm hreq
      exact ⟨hfields.2.1, a, b⟩
    rw [get_status_clean_shape env fs required man base h1 h2 h3 hmiss hbase (hcd _)]
    constructor
    · exact List.mem_cons_self _ _
    · intro m hm hreq
      exact List.mem_cons_of_mem _
        (scanModels_mkdir_mem env fs required base hbase hcd man.models 0 0 0 0 []
          hclean2 m hm hreq)
  · intro hbase hcdm pre m rest hsplit hpre hreq hne htrav hcdr
    have hrd : repo_dir env m.repo_dirname =
        (.error ⟨"io_failed", "Failed to create model repo dir"⟩,
          [.mkdirA (base ++ ["models"]),
           .mkdirA ((base ++ ["models"]) ++ m.repo_dirname.names)]) := by
      have hcdr2 : env.createDirFails (base ++ "models" :: m.repo_dirname.names) = true := by
        simpa using hcdr
      simp [repo_dir, models_dir, hne, htrav, hbase, hcdm, hcdr2]
    have hsm : scanModels env fs required man.models 0 0 0 0 [] =
        (.error ⟨"io_failed", "Failed to create model repo dir"⟩,
          [.mkdirA (base ++ ["models"]),
           .mkdirA ((base ++ ["models"]) ++ m.repo_dirname.names)]) := by
      rw [hsplit, scanModels_skip env fs required pre (m :: rest) 0 0 0 0 [] hpre,
        scanModels, hreq]
      simp only [eq_self_iff_true, if_true]
      rw [hrd]
    rw [get_status_clean_shape env fs required man base h1 h2 h3 hmiss hbase hcdm]
    dsimp only
    rw [hsm]
  · intro req manifest h
    exact get_status_no_access env fs req manifest h

theorem claim_C10_amended_witness :
    (MEv.mkdirA (["home"] ++ ["models"])
        ∈ (get_status envMOk fsEmpty REQUIRED_MODEL_KEYS (.ok manOk)).2
      ∧ ∀ m ∈ manOk.models, REQUIRED_MODEL_KEYS.any (fun k => k == m.key) = true →
          MEv.mkdirA ((["home"] ++ ["models"]) ++ m.repo_dirname.names)
            ∈ (get_status envMOk fsEmpty REQUIRED_MODEL_KEYS (.ok manOk)).2)
  ∧ (get_status envRepoFail fsEmpty REQUIRED_MODEL_KEYS (.ok manOk)).1 =
      .error ⟨"io_failed", "Failed to create model repo dir"⟩
  ∧ (get_status envMOk fsEmpty REQUIRED_MODEL_KEYS (.ok manIncomplete)).2 = [] :=
  ⟨(claim_C10_amended envMOk fsEmpty REQUIRED_MODEL_KEYS manOk ["home"]
      (by decide) (by decide) (by decide) (by decide)).2.2.1 rfl (fun _ => rfl) (by decide),
   (claim_C10_amended envRepoFail fsEmpty REQUIRED_MODEL_KEYS manOk ["home"]
      (by decide) (by decide) (by decide) (by decide)).2.2.2.1 rfl rfl
      [] specOkA [specOkB] rfl (by intro q hq; exact absurd hq (List.not_mem_nil q))
      (by decide) (by decide) (by decide) rfl,
   (claim_C10_amended envMOk fsEmpty REQUIRED_MODEL_KEYS manOk ["home"]
      (by decide) (by decide) (by decide) (by decide)).2.2.2.2
      REQUIRED_MODEL_KEYS (.ok manIncomplete)
      (Or.inr (Or.inr ⟨manIncomplete, rfl, Or.inr (Or.inr (by decide))⟩))⟩

theorem dlErrorCodes_append (a b : List MEv) :
    dlErrorCodes (a ++ b) = dlErrorCodes a ++ dlErrorCodes b := by
  simp [dlErrorCodes]

/-- Claim C6: a required model file entry whose path is absolute or contains
a parent-directory segment makes get_status fail hard with manifest_invalid,
with every filesystem access staying inside the models directory; under the
production key set, the downloader likewise emits a manifest_invalid
download error, spawns no campaign, releases the single-flight guard, and
also touches only paths inside the models directory. -/
theorem claim_C6 (env : ModelsEnv) (fs : FSState) (required : List String)
    (man : ModelManifest) (base : List String)
    (h1 : required.isEmpty = false)
    (h2 : man.models.isEmpty = false)
    (h3 : required.all (fun k => man.models.any (fun m => m.key == k)) = true)
    (hmiss : collectMissing required 0 man.models = [])
    (hbase : env.appDataDir = .ok base)
    (hcd : ∀ p, env.createDirFails p = false)
    (hclean : ∀ m ∈ man.models, required.any (fun k => k == m.key) = true →
      m.repo_dirname.hasTraversal = false ∧ m.repo_dirname.wf ∧
      ∀ f ∈ m.macos.files, f.path.wf)
    (hex : ∃ m ∈ man.models, required.any (fun k => k == m.key) = true ∧
      ∃ f ∈ m.macos.files, f.path.hasTraversal = true) :
    (get_status env fs required (.ok man)).1 =
      .error ⟨"manifest_invalid", "Manifest contains an invalid relative path"⟩
  ∧ (∀ q ∈ fsAccesses (get_status env fs required (.ok man)).2,
      UnderRoot (base ++ ["models"]) q)
  ∧ (required = REQUIRED_MODEL_KEYS →
      (handle_download_start env fs false (.ok man)).1 = false
      ∧ (handle_download_start env fs false (.ok man)).2.2 = none
      ∧ "manifest_invalid" ∈
          dlErrorCodes (handle_download_start env fs false (.ok man)).2.1
      ∧ ∀ q ∈ fsAccesses (handle_download_start env fs false (.ok man)).2.1,
          UnderRoot (base ++ ["models"]) q) := by
  have hfield := collectMissing_nil_fields required man.models 0 hmiss
  have hcl2 : ∀ m ∈ man.models, required.any (fun k => k == m.key) = true →
      trimEmpty m.repo_dirname.raw = false ∧ m.repo_dirname.hasTraversal = false :=
    fun m hm hr => ⟨(hfield m hm hr).2.1, (hclean m hm hr).1⟩
  have hclU : ∀ m ∈ man.models, required.any (fun k => k == m.key) = true →
      trimEmpty m.repo_dirname.raw = false ∧ m.repo_dirname.hasTraversal = false ∧
      m.repo_dirname.wf ∧ ∀ f ∈ m.macos.files, f.path.wf :=
    fun m hm hr => ⟨(hfield m hm hr).2.1, (hclean m hm hr).1,
      (hclean m hm hr).2.1, (hclean m hm hr).2.2⟩
  rcases hsm : scanModels env fs required man.models 0 0 0 0 [] with ⟨r, tr2⟩
  have hr1 := scanModels_traversal env fs required base hbase hcd man.models 0 0 0 0 []
    hcl2 hex
  rw [hsm] at hr1
  simp only at hr1
  subst hr1
  have hshape := get_status_clean_shape env fs required man base h1 h2 h3 hmiss hbase (hcd _)
  refine ⟨?_, ?_, ?_⟩
  · rw [hshape, hsm]
  · intro q hq
    rw [hshape] at hq
    have hq1 : q ∈ fsAccesses (MEv.mkdirA (base ++ ["models"]) ::
        (scanModels env fs required man.models 0 0 0 0 []).2) := hq
    rw [fsAccesses_cons_mkdir] at hq1
    rcases List.mem_cons.mp hq1 with rfl | hq2
    · exact ⟨[], by simp, by simp⟩
    · exact scanModels_under_root env fs required base hbase hcd man.models 0 0 0 0 []
        hclU q hq2
  · intro hreq
    subst hreq
    have hcl3 : ∀ m ∈ man.models, REQUIRED_MODEL_KEYS.any (fun k => k == m.key) = true →
        trimEmpty m.repo_dirname.raw = false ∧ m.repo_dirname.hasTraversal = false ∧
        m.macos.files.isEmpty = false :=
      fun m hm hr => ⟨(hfield m hm hr).2.1, (hclean m hm hr).1, (hfield m hm hr).2.2.2.2.2⟩
    rcases hbp : buildPending env fs man.models 0 [] with ⟨rb, trb⟩
    have hrb := buildPending_traversal env fs base hbase hcd man.models 0 [] hcl3 hex
    rw [hbp] at hrb
    simp only at hrb
    subst hrb
    have hshape2 : handle_download_start env fs false (.ok man) =
        (false, trb ++ [.downloadError "manifest_invalid"
          "Manifest contains an invalid relative path"], none) := by
      unfold handle_download_start
      simp only [Bool.false_eq_true, if_false, hbp]
    refine ⟨by rw [hshape2], by rw [hshape2], ?_, ?_⟩
    · rw [hshape2]
      simp [dlErrorCodes_append, dlErrorCodes]
    · intro q hq
      rw [hshape2] at hq
      have hq2 : q ∈ fsAccesses trb := by
        simpa [fsAccesses_append, fsAccesses] using hq
      exact buildPending_under_root env fs base hbase hcd man.models 0 [] hclU q
        (by rw [hbp]; exact hq2)

theorem claim_C6_witness :
    (get_status envMOk fsEmpty REQUIRED_MODEL_KEYS (.ok manEvil)).1 =
      .error ⟨"manifest_invalid", "Manifest contains an invalid relative path"⟩
  ∧ (handle_download_start envMOk fsEmpty false (.ok manEvil)).2.2 = none
  ∧ "manifest_invalid" ∈
      dlErrorCodes (handle_download_start envMOk fsEmpty false (.ok manEvil)).2.1 :=
  have h := claim_C6 envMOk fsEmpty REQUIRED_MODEL_KEYS manEvil ["home"]
    (by decide) (by decide) (by decide) (by decide) rfl (fun _ => rfl)
    (by decide) (by decide)
  ⟨h.1, (h.2.2 rfl).2.1, (h.2.2 rfl).2.2.1⟩

/-- Claim C8: when some required model has an empty file list (with the
preliminary checks passing), get_status returns ManifestIncomplete carrying
the accumulated dot-path names of the omissions, with no hard error and no
filesystem access, and the accumulation never short-circuits: the entry for
the offending model is present, and every required model contributes all of
its own omissions to the returned list. -/
theorem claim_C8 (env : ModelsEnv) (fs : FSState) (required : List String)
    (man : ModelManifest) (i : Nat) (mi : ModelSpec)
    (h1 : required.isEmpty = false)
    (h2 : man.models.isEmpty = false)
    (h3 : required.all (fun k => man.models.any (fun m => m.key == k)) = true)
    (h4 : man.models[i]? = some mi)
    (h5 : required.any (fun k => k == mi.key) = true)
    (h6 : mi.macos.files.isEmpty = true) :
    get_status env fs required (.ok man) =
      (.ok (.manifestIncomplete
        "Model manifest is missing required fields to determine readiness"
        (collectMissing required 0 man.models)), [])
  ∧ ("models[" ++ toString i ++ "].macos.files") ∈ collectMissing required 0 man.models
  ∧ (∀ (j : Nat) (mj : ModelSpec), man.models[j]? = some mj →
      required.any (fun k => k == mj.key) = true →
      missingOfModel j mj ⊆ collectMissing required 0 man.models) := by
  have hmemM : ("models[" ++ toString i ++ "].macos.files") ∈ missingOfModel i mi := by
    unfold missingOfModel
    simp [h6]
  have hmem : ("models[" ++ toString i ++ "].macos.files")
      ∈ collectMissing required 0 man.models := by
    have hsub := missingOfModel_mem required man.models 0 i mi h4 h5
    apply hsub
    simpa using hmemM
  have hne : (collectMissing required 0 man.models).isEmpty = false := by
    cases hc : collectMissing required 0 man.models with
    | nil => rw [hc] at hmem; simp at hmem
    | cons a b => rfl
  refine ⟨?_, hmem, ?_⟩
  · simp [get_status, h1, h2, h3, hne]
  · intro j mj hj hreqj
    have hsub := missingOfModel_mem required man.models 0 j mj hj hreqj
    simpa using hsub

theorem claim_C8_witness :
    get_status envMOk fsEmpty REQUIRED_MODEL_KEYS (.ok manIncomplete) =
      (.ok (.manifestIncomplete
        "Model manifest is missing required fields to determine readiness"
        (collectMissing REQUIRED_MODEL_KEYS 0 manIncomplete.models)), [])
  ∧ ("models[" ++ toString 1 ++ "].macos.files")
      ∈ collectMissing REQUIRED_MODEL_KEYS 0 manIncomplete.models
  ∧ (∀ (j : Nat) (mj : ModelSpec), manIncomplete.models[j]? = some mj →
      REQUIRED_MODEL_KEYS.any (fun k => k == mj.key) = true →
      missingOfModel j mj ⊆ collectMissing REQUIRED_MODEL_KEYS 0 manIncomplete.models) :=
  claim_C8 envMOk fsEmpty _ _ 1 specEmptyB (by decide) (by decide) (by decide)
    (by decide) (by decide) (by decide)

theorem claim_C5_amended_witness :
    (∃ m, parse_sidecar_event_line "oops" (.error "expected value") = .error m ∧
        strStartsWith m "[audio.dictation] sidecar_invalid_json" = true)
  ∧ strStartsWith "[audio.dictation] sidecar_invalid_schema: line is not a JSON object; line=3"
      "[audio.dictation] sidecar_invalid_schema" = true
  ∧ readerLoop "d1" [.lineOk "3" (.ok (.num 3)), .ioErr "late"] =
      ([.errorEv "d1" "sidecar_invalid_json" "Failed to parse sidecar stdout line"
          (.obj [("error",
              .str "[audio.dictation] sidecar_invalid_schema: line is not a JSON object; line=3"),
            ("line", .str "3")])], true) :=
  ⟨claim_C5_amended.1 "oops" "expected value",
   claim_C5_amended.2.1 "3" (.num 3) _ rfl,
   claim_C5_amended.2.2 "d1" "3" (.ok (.num 3)) _ [.ioErr "late"] (by decide) rfl⟩

/-! Helper lemmas about the download pipeline. -/

theorem FSState.nodes_set (fs : FSState) (p : List String) (n : Option FsNode)
    (q : List String) : (fs.set p n).nodes q = if q = p then n else fs.nodes q := rfl

theorem mkdirEff_nodes (fs : FSState) (p q : List String) (h : q ≠ p) :
    (fs.mkdirEff p).nodes q = fs.nodes q := by
  unfold FSState.mkdirEff
  cases fs.nodes p
  · simp [FSState.nodes_set, h]
  · rfl

theorem dropLast_append_getLast_eq {α : Type} :
    ∀ (l : List α) (a : α), l.getLast? = some a → l.dropLast ++ [a] = l
  | [], a, h => by simp at h
  | [b], a, h => by simp_all
  | b :: c :: rest, a, h => by
    have ih := dropLast_append_getLast_eq (c :: rest) a (by simpa using h)
    simpa using ih

theorem append_partial_ne (name : String) : name ++ ".partial" ≠ name := by
  intro h
  have := congrArg (fun s => s.data.length) h
  simp [String.data_append] at this

theorem appendFile_nodes (fs : FSState) (p : List String) (c : List Nat)
    (q : List String) (h : q ≠ p) : (fs.appendFile p c).nodes q = fs.nodes q := by
  unfold FSState.appendFile
  cases hn : fs.nodes p with
  | none => simp [FSState.nodes_set, h]
  | some node => cases node <;> simp [FSState.nodes_set, h]

theorem streamLoop_frame (env : DlEnv) (tmp : List String) (total off : Nat) :
    ∀ (items : List StreamItem) (idx : Nat) (fs : FSState) (dn : Nat) (q : List String),
      q ≠ tmp →
      (streamLoop env tmp total off items idx fs dn).2.1.nodes q = fs.nodes q := by
  intro items
  induction items with
  | nil => intro idx fs dn q h; simp [streamLoop]
  | cons it rest ih =>
    intro idx fs dn q h
    cases it with
    | chunkErr m => simp [streamLoop]
    | chunkOk c =>
      cases hw : env.writeFails tmp idx
      · rw [streamLoop]
        simp only [hw, Bool.false_eq_true, if_false]
        rcases hsl : streamLoop env tmp total off rest (idx + 1) (fs.appendFile tmp c)
            (satAdd dn c.length) with ⟨r, fs2, evs⟩
        simp only [hsl]
        have hih := ih (idx + 1) (fs.appendFile tmp c) (satAdd dn c.length) q h
        rw [hsl] at hih
        simpa [appendFile_nodes fs tmp c q h] using hih
      · simp [streamLoop, hw]

theorem streamLoop_http (env : DlEnv) (tmp : List String) (total off : Nat) :
    ∀ (items : List StreamItem) (idx : Nat) (fs : FSState) (dn : Nat),
      httpReqs (streamLoop env tmp total off items idx fs dn).2.2 = [] := by
  intro items
  induction items with
  | nil => intro idx fs dn; simp [streamLoop, httpReqs]
  | cons it rest ih =>
    intro idx fs dn
    cases it with
    | chunkErr m => simp [streamLoop, httpReqs]
    | chunkOk c =>
      cases hw : env.writeFails tmp idx
      · rw [streamLoop]
        simp only [hw, Bool.false_eq_true, if_false]
        rcases hsl : streamLoop env tmp total off rest (idx + 1) (fs.appendFile tmp c)
            (satAdd dn c.length) with ⟨r, fs2, evs⟩
        simp only [hsl]
        have hih := ih (idx + 1) (fs.appendFile tmp c) (satAdd dn c.length)
        rw [hsl] at hih
        simpa [httpReqs] using hih
      · simp [streamLoop, hw, httpReqs]

theorem verifyDownloaded_fs (env : DlEnv) (fs3 : FSState) (tmp : List String)
    (sha : String) (size dn : Nat) (tr : List MEv) :
    (verifyDownloaded env fs3 tmp sha size dn tr).2.1 = fs3 := by
  unfold verifyDownloaded
  dsimp only
  repeat' split
  all_goals rfl

theorem verifyDownloaded_evs (env : DlEnv) (fs3 : FSState) (tmp : List String)
    (sha : String) (size dn : Nat) (tr : List MEv) :
    (verifyDownloaded env fs3 tmp sha size dn tr).2.2 = tr := by
  unfold verifyDownloaded
  dsimp only
  repeat' split
  all_goals rfl

theorem httpReqs_append (a b : List MEv) :
    httpReqs (a ++ b) = httpReqs a ++ httpReqs b := by
  simp [httpReqs]

theorem httpReqs_cons_get (u : String) (tr : List MEv) :
    httpReqs (.httpGetA u :: tr) = u :: httpReqs tr := by
  simp [httpReqs]

theorem httpReqs_cons_mkdir (p : List String) (tr : List MEv) :
    httpReqs (.mkdirA p :: tr) = httpReqs tr := by
  simp [httpReqs]

theorem httpReqs_cons_progress (b t : Nat) (tr : List MEv) :
    httpReqs (.progress b t :: tr) = httpReqs tr := by
  simp [httpReqs]

theorem download_to_path_frame (env : DlEnv) (fs : FSState) (url : String)
    (tmp : List String) (sha : String) (size total off : Nat) (q : List String)
    (h1 : q ≠ tmp) (h2 : q ≠ tmp.dropLast) :
    (download_to_path env fs url tmp sha size total off).2.1.nodes q = fs.nodes q := by
  unfold download_to_path
  cases env.http url with
  | sendErr m => rfl
  | resp status stream =>
    cases hst : !(200 ≤ status && status < 300)
    · simp only [hst, Bool.false_eq_true, if_false]
      cases hcd : env.createDirFails tmp.dropLast
      · simp only [hcd, Bool.false_eq_true, if_false]
        cases hcf : env.createFileFails tmp
        · simp only [hcf, Bool.false_eq_true, if_false]
          rcases hsl : streamLoop env tmp total off stream 0
              ((fs.mkdirEff tmp.dropLast).set tmp (some (.file []))) 0 with ⟨r, fs3, evs⟩
          have hfr : fs3.nodes q = fs.nodes q := by
            have := streamLoop_frame env tmp total off stream 0
              ((fs.mkdirEff tmp.dropLast).set tmp (some (.file []))) 0 q h1
            rw [hsl] at this
            rw [this, FSState.nodes_set]
            simp only [h1, if_false]
            exact mkdirEff_nodes fs tmp.dropLast q h2
          cases r with
          | error e => exact hfr
          | ok dn =>
            show (verifyDownloaded env fs3 tmp sha size dn
              (MEv.httpGetA url :: MEv.mkdirA tmp.dropLast :: evs)).2.1.nodes q = fs.nodes q
            rw [verifyDownloaded_fs]
            exact hfr
        · simp only [hcf, eq_self_iff_true, if_true]
          exact mkdirEff_nodes fs tmp.dropLast q h2
      · simp only [hcd, eq_self_iff_true, if_true]
    · simp only [hst, eq_self_iff_true, if_true]

theorem download_to_path_http (env : DlEnv) (fs : FSState) (url : String)
    (tmp : List String) (sha : String) (size total off : Nat) :
    httpReqs (download_to_path env fs url tmp sha size total off).2.2 = [url] := by
  unfold download_to_path
  cases env.http url with
  | sendErr m => simp [httpReqs]
  | resp status stream =>
    cases hst : !(200 ≤ status && status < 300)
    · simp only [hst, Bool.false_eq_true, if_false]
      cases hcd : env.createDirFails tmp.dropLast
      · simp only [hcd, Bool.false_eq_true, if_false]
        cases hcf : env.createFileFails tmp
        · simp only [hcf, Bool.false_eq_true, if_false]
          rcases hsl : streamLoop env tmp total off stream 0
              ((fs.mkdirEff tmp.dropLast).set tmp (some (.file []))) 0 with ⟨r, fs3, evs⟩
          have hevs : httpReqs evs = [] := by
            have := streamLoop_http env tmp total off stream 0
              ((fs.mkdirEff tmp.dropLast).set tmp (some (.file []))) 0
            rw [hsl] at this
            exact this
          cases r with
          | error e =>
            show httpReqs (MEv.httpGetA url :: MEv.mkdirA tmp.dropLast :: evs) = [url]
            rw [httpReqs_cons_get, httpReqs_cons_mkdir, hevs]
          | ok dn =>
            show httpReqs (verifyDownloaded env fs3 tmp sha size dn
              (MEv.httpGetA url :: MEv.mkdirA tmp.dropLast :: evs)).2.2 = [url]
            rw [verifyDownloaded_evs, httpReqs_cons_get, httpReqs_cons_mkdir, hevs]
        · simp [hcf, httpReqs]
      · simp [hcd, httpReqs]
    · simp [hst, httpReqs]

theorem renameStep_evs (env : DlEnv) (fs : FSState) (tmp dest : List String)
    (dn : Nat) (tr : List MEv) : (renameStep env fs tmp dest dn tr).2.2 = tr := by
  unfold renameStep
  split <;> rfl

theorem renameStep_fail (env : DlEnv) (fs : FSState) (tmp dest : List String)
    (dn : Nat) (tr : List MEv) (h : env.renameFails tmp dest = true) :
    renameStep env fs tmp dest dn tr =
      (.error ⟨"io_failed", "Failed to move downloaded file into place"⟩, fs, tr) := by
  simp [renameStep, h]

theorem renameStep_ok (env : DlEnv) (fs : FSState) (tmp dest : List String)
    (dn : Nat) (tr : List MEv) (h : env.renameFails tmp dest = false) :
    renameStep env fs tmp dest dn tr =
      (.ok dn, (fs.set dest (fs.nodes tmp)).set tmp none, tr) := by
  simp [renameStep, h]

theorem finalizeOne_evs (env : DlEnv) (fs1 : FSState) (tmp dest : List String)
    (dn : Nat) (evs : List MEv) :
    (finalizeOne env fs1 tmp dest dn evs).2.2 = evs ++ [.mkdirA dest.dropLast] := by
  unfold finalizeOne
  dsimp only
  repeat' split
  all_goals first
    | rfl
    | exact renameStep_evs _ _ _ _ _ _

theorem finalizeOne_err_dest (env : DlEnv) (fs1 : FSState) (tmp dest : List String)
    (dn : Nat) (evs : List MEv) (e : AudioModelsError)
    (hne : dest ≠ dest.dropLast)
    (herr : (finalizeOne env fs1 tmp dest dn evs).1 = .error e) :
    (finalizeOne env fs1 tmp dest dn evs).2.1.nodes dest = fs1.nodes dest ∨
    (finalizeOne env fs1 tmp dest dn evs).2.1.nodes dest = none := by
  unfold finalizeOne at herr ⊢
  dsimp only at herr ⊢
  cases hcd : env.createDirFails dest.dropLast
  · simp only [hcd, Bool.false_eq_true, if_false] at herr ⊢
    have hmk : (fs1.mkdirEff dest.dropLast).nodes dest = fs1.nodes dest :=
      mkdirEff_nodes _ _ _ hne
    cases hnd : (fs1.mkdirEff dest.dropLast).nodes dest
    · simp only [hnd] at herr ⊢
      cases hrn : env.renameFails tmp dest
      · rw [renameStep_ok _ _ _ _ _ _ hrn] at herr
        simp at herr
      · rw [renameStep_fail _ _ _ _ _ _ hrn]
        left
        exact hmk
    · cases hrm : env.removeFails dest
      · simp only [hnd, hrm, Bool.false_eq_true, if_false] at herr ⊢
        cases hrn : env.renameFails tmp dest
        · rw [renameStep_ok _ _ _ _ _ _ hrn] at herr
          simp at herr
        · rw [renameStep_fail _ _ _ _ _ _ hrn]
          right
          show ((fs1.mkdirEff dest.dropLast).set dest none).nodes dest = none
          rw [FSState.nodes_set]
          simp
      · simp only [hnd, hrm, eq_self_iff_true, if_true] at herr ⊢
        rw [hnd] at hmk
        left
        exact hmk
  · simp only [hcd, eq_self_iff_true, if_true] at herr ⊢
    exact Or.inl trivial

theorem processOne_inner_cleanup (env : DlEnv) (fs : FSState) (p : PendingDownload)
    (total off : Nat) (name : String) (e : AudioModelsError) (fs1 : FSState)
    (evs : List MEv)
    (hlast : p.dest_path.getLast? = some name)
    (hdl : download_to_path env fs p.download_url
      (p.dest_path.dropLast ++ [name ++ ".partial"]) p.expected_sha256
      p.expected_size total off = (.error e, fs1, evs))
    (hrm : env.removeFails (p.dest_path.dropLast ++ [name ++ ".partial"]) = false) :
    processOne env fs p total off =
      (.error e, fs1.set (p.dest_path.dropLast ++ [name ++ ".partial"]) none, evs) := by
  unfold processOne
  simp only [hlast, hdl, hrm, Bool.false_eq_true, if_false]

theorem processOne_dest (env : DlEnv) (fs : FSState) (p : PendingDownload)
    (total off : Nat) (e : AudioModelsError)
    (herr : (processOne env fs p total off).1 = .error e) :
    (processOne env fs p total off).2.1.nodes p.dest_path = fs.nodes p.dest_path ∨
    (processOne env fs p total off).2.1.nodes p.dest_path = none := by
  unfold processOne at herr ⊢
  cases hlast : p.dest_path.getLast? with
  | none => left; rfl
  | some name =>
    have hdest : p.dest_path.dropLast ++ [name] = p.dest_path :=
      dropLast_append_getLast_eq _ _ hlast
    have hd_ne_tmp : p.dest_path ≠ p.dest_path.dropLast ++ [name ++ ".partial"] := by
      intro h
      have h2 := List.append_cancel_left (hdest.trans h)
      simp at h2
      exact append_partial_ne name h2.symm
    have hd_ne_par : p.dest_path ≠ p.dest_path.dropLast := by
      intro h
      have h2 : p.dest_path.dropLast ++ [name] = p.dest_path.dropLast := by
        rw [hdest]
        exact h
      have h3 := congrArg List.length h2
      simp at h3
    have htmpdrop : (p.dest_path.dropLast ++ [name ++ ".partial"]).dropLast =
        p.dest_path.dropLast := by
      simp
    rw [hlast] at herr
    dsimp only at herr ⊢
    rcases hdl : download_to_path env fs p.download_url
        (p.dest_path.dropLast ++ [name ++ ".partial"]) p.expected_sha256
        p.expected_size total off with ⟨r, fsd, evd⟩
    rw [hdl] at herr
    have hfr : fsd.nodes p.dest_path = fs.nodes p.dest_path := by
      have h4 := download_to_path_frame env fs p.download_url
        (p.dest_path.dropLast ++ [name ++ ".partial"]) p.expected_sha256
        p.expected_size total off p.dest_path hd_ne_tmp
        (by rw [htmpdrop]; exact hd_ne_par)
      rw [hdl] at h4
      exact h4
    cases r with
    | error e2 =>
      left
      cases hrm : env.removeFails (p.dest_path.dropLast ++ [name ++ ".partial"])
      · show (fsd.set (p.dest_path.dropLast ++ [name ++ ".partial"]) none).nodes p.dest_path
            = fs.nodes p.dest_path
        rw [FSState.nodes_set, if_neg hd_ne_tmp]
        exact hfr
      · exact hfr
    | ok dn =>
      have herr2 : (finalizeOne env fsd (p.dest_path.dropLast ++ [name ++ ".partial"])
          p.dest_path dn evd).1 = .error e := herr
      rcases finalizeOne_err_dest env fsd _ p.dest_path dn evd e hd_ne_par herr2 with h | h
      · left
        exact h.trans hfr
      · right
        exact h

theorem processOne_http_ok (env : DlEnv) (fs : FSState) (p : PendingDownload)
    (total off dn : Nat)
    (hok : (processOne env fs p total off).1 = .ok dn) :
    httpReqs (processOne env fs p total off).2.2 = [p.download_url] := by
  unfold processOne at hok ⊢
  cases hlast : p.dest_path.getLast? with
  | none =>
    rw [hlast] at hok
    simp at hok
  | some name =>
    rw [hlast] at hok
    dsimp only at hok ⊢
    rcases hdl : download_to_path env fs p.download_url
        (p.dest_path.dropLast ++ [name ++ ".partial"]) p.expected_sha256
        p.expected_size total off with ⟨r, fsd, evd⟩
    rw [hdl] at hok
    have hh := download_to_path_http env fs p.download_url
      (p.dest_path.dropLast ++ [name ++ ".partial"]) p.expected_sha256
      p.expected_size total off
    rw [hdl] at hh
    cases r with
    | error e => simp at hok
    | ok dn2 =>
      show httpReqs (finalizeOne env fsd (p.dest_path.dropLast ++ [name ++ ".partial"])
          p.dest_path dn2 evd).2.2 = [p.download_url]
      rw [finalizeOne_evs, httpReqs_append, hh]
      simp [httpReqs]

theorem processOne_http (env : DlEnv) (fs : FSState) (p : PendingDownload)
    (total off : Nat) :
    httpReqs (processOne env fs p total off).2.2 = [] ∨
    httpReqs (processOne env fs p total off).2.2 = [p.download_url] := by
  unfold processOne
  cases hlast : p.dest_path.getLast? with
  | none => left; rfl
  | some name =>
    right
    dsimp only
    rcases hdl : download_to_path env fs p.download_url
        (p.dest_path.dropLast ++ [name ++ ".partial"]) p.expected_sha256
        p.expected_size total off with ⟨r, fsd, evd⟩
    have hh := download_to_path_http env fs p.download_url
      (p.dest_path.dropLast ++ [name ++ ".partial"]) p.expected_sha256
      p.expected_size total off
    rw [hdl] at hh
    cases r with
    | error e => exact hh
    | ok dn =>
      show httpReqs (finalizeOne env fsd (p.dest_path.dropLast ++ [name ++ ".partial"])
          p.dest_path dn evd).2.2 = [p.download_url]
      rw [finalizeOne_evs, httpReqs_append, hh]
      simp [httpReqs]

theorem download_all_go_http (env : DlEnv) (total : Nat) :
    ∀ (pending : List PendingDownload) (fs : FSState) (off : Nat),
      ∃ n, httpReqs (download_all_go env total pending fs off).2.2 =
        (pending.map (fun p => p.download_url)).take n := by
  intro pending
  induction pending with
  | nil => intro fs off; exact ⟨0, by simp [download_all_go, httpReqs]⟩
  | cons p rest ih =>
    intro fs off
    rcases hpo : processOne env fs p total off with ⟨r, fs1, evs⟩
    rw [download_all_go]
    cases r with
    | error e =>
      simp only [hpo]
      have hp := processOne_http env fs p total off
      rw [hpo] at hp
      rcases hp with h | h
      · exact ⟨0, by simpa using h⟩
      · exact ⟨1, by simpa using h⟩
    | ok dn =>
      simp only [hpo]
      obtain ⟨n, hn⟩ := ih fs1 (satAdd off dn)
      have hok : (processOne env fs p total off).1 = .ok dn := by rw [hpo]
      have hp := processOne_http_ok env fs p total off dn hok
      rw [hpo] at hp
      refine ⟨n + 1, ?_⟩
      rcases hgo : download_all_go env total rest fs1 (satAdd off dn) with ⟨r2, fs2, evs2⟩
      rw [hgo] at hn
      show httpReqs (evs ++ evs2) = ((p :: rest).map (fun p => p.download_url)).take (n + 1)
      rw [httpReqs_append, hp, hn]
      simp

/-- Claim C1 is refuted by this run: the per-file transfer and verification
succeed, but the rename into place fails; the campaign aborts with io_failed
while the .partial temp file, with all three streamed bytes, is left on
disk rather than deleted. -/
theorem claim_C1_counterexample :
    (download_all dlRenameFail fsEmpty [pendingOne] 3 0).1 =
      .error ⟨"io_failed", "Failed to move downloaded file into place"⟩
  ∧ (download_all dlRenameFail fsEmpty [pendingOne] 3 0).2.1.nodes
      ["home", "models", "repoA", "model.bin.partial"] = some (.file [1, 2, 3]) := by
  exact ⟨rfl, rfl⟩

/-! Helper lemmas for the progress-monotonicity claim. -/

theorem satAdd_le_cap (a b : Nat) : satAdd a b ≤ 2 ^ 64 - 1 := by
  unfold satAdd; omega

theorem le_satAdd_left (a b : Nat) (h : a ≤ 2 ^ 64 - 1) : a ≤ satAdd a b := by
  unfold satAdd; omega

theorem satAdd_mono (a b c : Nat) (h : b ≤ c) : satAdd a b ≤ satAdd a c := by
  unfold satAdd; omega

theorem satAdd_zero (a : Nat) (h : a ≤ 2 ^ 64 - 1) : satAdd a 0 = a := by
  unfold satAdd; omega

theorem satAdd_satAdd (a b c : Nat) : satAdd (satAdd a b) c = satAdd a (b + c) := by
  unfold satAdd; omega

theorem satAdd_of_le (a b : Nat) (h : a + b ≤ 2 ^ 64 - 1) : satAdd a b = a + b := by
  unfold satAdd; omega

theorem progressVals_nil : progressVals [] = [] := rfl

theorem progressVals_append (a b : List MEv) :
    progressVals (a ++ b) = progressVals a ++ progressVals b := by
  simp [progressVals]

theorem progressVals_cons_progress (b t : Nat) (tr : List MEv) :
    progressVals (.progress b t :: tr) = b :: progressVals tr := by
  simp [progressVals]

theorem progressVals_cons_get (u : String) (tr : List MEv) :
    progressVals (.httpGetA u :: tr) = progressVals tr := by
  simp [progressVals]

theorem progressVals_cons_mkdir (p : List String) (tr : List MEv) :
    progressVals (.mkdirA p :: tr) = progressVals tr := by
  simp [progressVals]

theorem progressVals_done : progressVals [.downloadDone] = [] := rfl

theorem progressTotals_nil : progressTotals [] = [] := rfl

theorem progressTotals_append (a b : List MEv) :
    progressTotals (a ++ b) = progressTotals a ++ progressTotals b := by
  simp [progressTotals]

theorem progressTotals_cons_progress (b t : Nat) (tr : List MEv) :
    progressTotals (.progress b t :: tr) = t :: progressTotals tr := by
  simp [progressTotals]

theorem progressTotals_cons_get (u : String) (tr : List MEv) :
    progressTotals (.httpGetA u :: tr) = progressTotals tr := by
  simp [progressTotals]

theorem progressTotals_cons_mkdir (p : List String) (tr : List MEv) :
    progressTotals (.mkdirA p :: tr) = progressTotals tr := by
  simp [progressTotals]

theorem progressTotals_done : progressTotals [.downloadDone] = [] := rfl

theorem getLast_of_append {α : Type} (l₂ : List α) (h : l₂ ≠ []) :
    ∀ l₁ : List α, (l₁ ++ l₂).getLast? = l₂.getLast? := by
  intro l₁
  induction l₁ with
  | nil => rfl
  | cons a t ih =>
    rw [List.cons_append, ← ih]
    cases ht : t ++ l₂ with
    | nil => exact absurd (List.append_eq_nil.mp ht).2 h
    | cons b u => rw [List.getLast?_cons_cons]

theorem appendFile_self (fs : FSState) (p : List String) (c0 c : List Nat)
    (h : fs.nodes p = some (.file c0)) :
    (fs.appendFile p c).nodes p = some (.file (c0 ++ c)) := by
  unfold FSState.appendFile
  rw [h]
  simp [FSState.nodes_set]

theorem streamLoop_ok_vals (env : DlEnv) (tmp : List String) (total off : Nat) :
    ∀ (items : List StreamItem) (idx : Nat) (fs : FSState) (dn n : Nat),
      dn ≤ 2 ^ 64 - 1 →
      (streamLoop env tmp total off items idx fs dn).1 = .ok n →
      dn ≤ n ∧
      List.Chain' (· ≤ ·)
        (satAdd off dn :: progressVals (streamLoop env tmp total off items idx fs dn).2.2) ∧
      (satAdd off dn :: progressVals (streamLoop env tmp total off items idx fs dn).2.2).getLast?
        = some (satAdd off n) := by
  intro items
  induction items with
  | nil =>
    intro idx fs dn n hdn hok
    simp only [streamLoop] at hok ⊢
    simp only [Except.ok.injEq] at hok
    subst hok
    exact ⟨Nat.le_refl _, List.chain'_singleton _, rfl⟩
  | cons it rest ih =>
    intro idx fs dn n hdn hok
    cases it with
    | chunkErr m => rw [streamLoop] at hok; simp at hok
    | chunkOk c =>
      cases hw : env.writeFails tmp idx
      · rw [streamLoop] at hok ⊢
        simp only [hw, Bool.false_eq_true, if_false] at hok ⊢
        rcases hsl : streamLoop env tmp total off rest (idx + 1) (fs.appendFile tmp c)
            (satAdd dn c.length) with ⟨r, fs2, evs⟩
        rw [hsl] at hok
        dsimp only at hok ⊢
        have hdn1 : satAdd dn c.length ≤ 2 ^ 64 - 1 := satAdd_le_cap _ _
        have hokr : (streamLoop env tmp total off rest (idx + 1) (fs.appendFile tmp c)
            (satAdd dn c.length)).1 = .ok n := by rw [hsl]; exact hok
        have hih := ih (idx + 1) (fs.appendFile tmp c) (satAdd dn c.length) n hdn1 hokr
        rw [hsl] at hih
        obtain ⟨hle, hch, hlast⟩ := hih
        refine ⟨Nat.le_trans (le_satAdd_left dn c.length hdn) hle, ?_, ?_⟩
        · rw [progressVals_cons_progress]
          exact List.chain'_cons.mpr
            ⟨satAdd_mono off dn (satAdd dn c.length) (le_satAdd_left dn c.length hdn), hch⟩
        · rw [progressVals_cons_progress, List.getLast?_cons_cons]
          exact hlast
      · rw [streamLoop] at hok
        simp [hw] at hok

theorem streamLoop_ok_content (env : DlEnv) (tmp : List String) (total off : Nat) :
    ∀ (items : List StreamItem) (idx : Nat) (fs : FSState) (dn n : Nat) (c0 : List Nat),
      dn ≤ 2 ^ 64 - 1 →
      fs.nodes tmp = some (.file c0) →
      (streamLoop env tmp total off items idx fs dn).1 = .ok n →
      ∃ app : List Nat,
        (streamLoop env tmp total off items idx fs dn).2.1.nodes tmp
          = some (.file (c0 ++ app)) ∧
        n = satAdd dn app.length := by
  intro items
  induction items with
  | nil =>
    intro idx fs dn n c0 hdn hc0 hok
    simp only [streamLoop] at hok ⊢
    simp only [Except.ok.injEq] at hok
    subst hok
    exact ⟨[], by simpa using hc0, (satAdd_zero dn hdn).symm⟩
  | cons it rest ih =>
    intro idx fs dn n c0 hdn hc0 hok
    cases it with
    | chunkErr m => rw [streamLoop] at hok; simp at hok
    | chunkOk c =>
      cases hw : env.writeFails tmp idx
      · rw [streamLoop] at hok ⊢
        simp only [hw, Bool.false_eq_true, if_false] at hok ⊢
        rcases hsl : streamLoop env tmp total off rest (idx + 1) (fs.appendFile tmp c)
            (satAdd dn c.length) with ⟨r, fs2, evs⟩
        rw [hsl] at hok
        dsimp only at hok ⊢
        have hdn1 : satAdd dn c.length ≤ 2 ^ 64 - 1 := satAdd_le_cap _ _
        have hokr : (streamLoop env tmp total off rest (idx + 1) (fs.appendFile tmp c)
            (satAdd dn c.length)).1 = .ok n := by rw [hsl]; exact hok
        have hih := ih (idx + 1) (fs.appendFile tmp c) (satAdd dn c.length) n (c0 ++ c)
          hdn1 (appendFile_self fs tmp c0 c hc0) hokr
        rw [hsl] at hih
        obtain ⟨app, happ, hnapp⟩ := hih
        refine ⟨c ++ app, ?_, ?_⟩
        · rw [← List.append_assoc]
          exact happ
        · rw [List.length_append, ← satAdd_satAdd]
          exact hnapp
      · rw [streamLoop] at hok
        simp [hw] at hok

theorem streamLoop_totals (env : DlEnv) (tmp : List String) (total off : Nat) :
    ∀ (items : List StreamItem) (idx : Nat) (fs : FSState) (dn : Nat),
      ∀ t ∈ progressTotals (streamLoop env tmp total off items idx fs dn).2.2, t = total := by
  intro items
  induction items with
  | nil => intro idx fs dn; simp [streamLoop, progressTotals]
  | cons it rest ih =>
    intro idx fs dn
    cases it with
    | chunkErr m => simp [streamLoop, progressTotals]
    | chunkOk c =>
      cases hw : env.writeFails tmp idx
      · rw [streamLoop]
        simp only [hw, Bool.false_eq_true, if_false]
        rcases hsl : streamLoop env tmp total off rest (idx + 1) (fs.appendFile tmp c)
            (satAdd dn c.length) with ⟨r, fs2, evs⟩
        dsimp only
        intro t ht
        rw [progressTotals_cons_progress] at ht
        rcases List.mem_cons.mp ht with h | h
        · exact h
        · have := ih (idx + 1) (fs.appendFile tmp c) (satAdd dn c.length)
          rw [hsl] at this
          exact this t h
      · simp [streamLoop, hw, progressTotals]

theorem verifyDownloaded_ok (env : DlEnv) (fs3 : FSState) (tmp : List String)
    (sha : String) (size dn n : Nat) (tr : List MEv) (c : List Nat)
    (hc : fs3.nodes tmp = some (.file c))
    (hok : (verifyDownloaded env fs3 tmp sha size dn tr).1 = .ok n) :
    n = dn ∧ c.length = size := by
  unfold verifyDownloaded at hok
  rw [hc] at hok
  dsimp only at hok
  cases hf : env.flushFails tmp with
  | true => rw [hf] at hok; simp at hok
  | false =>
    rw [hf] at hok
    simp only [Bool.false_eq_true, if_false] at hok
    cases hst : env.statFails tmp with
    | true => rw [hst] at hok; simp at hok
    | false =>
      rw [hst] at hok
      simp only [Bool.false_eq_true, if_false] at hok
      by_cases hsz : c.length = size
      · rw [if_neg (by simp [hsz])] at hok
        refine ⟨?_, hsz⟩
        cases hsha : (strTrim sha).data.isEmpty with
        | true =>
          rw [hsha] at hok
          simp at hok
          exact hok.symm
        | false =>
          rw [hsha] at hok
          simp only [Bool.false_eq_true, if_false] at hok
          by_cases hmm : strToLower (env.sha256hex c) ≠ strToLower (strTrim sha)
          · rw [if_pos hmm] at hok; simp at hok
          · rw [if_neg hmm] at hok
            simp at hok
            exact hok.symm
      · rw [if_pos hsz] at hok
        simp at hok

theorem renameStep_ok_val (env : DlEnv) (fs : FSState) (tmp dest : List String)
    (dn n : Nat) (tr : List MEv)
    (hok : (renameStep env fs tmp dest dn tr).1 = .ok n) : n = dn := by
  unfold renameStep at hok
  cases hr : env.renameFails tmp dest with
  | true => rw [hr] at hok; simp at hok
  | false =>
    rw [hr] at hok
    simp at hok
    exact hok.symm

theorem finalizeOne_ok_val (env : DlEnv) (fs1 : FSState) (tmp dest : List String)
    (dn n : Nat) (evs : List MEv)
    (hok : (finalizeOne env fs1 tmp dest dn evs).1 = .ok n) : n = dn := by
  unfold finalizeOne at hok
  dsimp only at hok
  cases hcd : env.createDirFails dest.dropLast with
  | true => rw [hcd] at hok; simp at hok
  | false =>
    rw [hcd] at hok
    simp only [Bool.false_eq_true, if_false] at hok
    cases hnd : (fs1.mkdirEff dest.dropLast).nodes dest with
    | some node =>
      rw [hnd] at hok
      dsimp only at hok
      cases hrm : env.removeFails dest with
      | true => rw [hrm] at hok; simp at hok
      | false =>
        rw [hrm] at hok
        simp only [Bool.false_eq_true, if_false] at hok
        exact renameStep_ok_val env _ tmp dest dn n _ hok
    | none =>
      rw [hnd] at hok
      dsimp only at hok
      exact renameStep_ok_val env _ tmp dest dn n _ hok

theorem download_to_path_ok (env : DlEnv) (fs : FSState) (url : String)
    (tmp : List String) (sha : String) (size total off n : Nat)
    (hoff : off ≤ 2 ^ 64 - 1) (hsize : size ≤ 2 ^ 64 - 1)
    (hok : (download_to_path env fs url tmp sha size total off).1 = .ok n) :
    n = size ∧
    List.Chain' (· ≤ ·)
      (off :: progressVals (download_to_path env fs url tmp sha size total off).2.2) ∧
    (off :: progressVals (download_to_path env fs url tmp sha size total off).2.2).getLast?
      = some (satAdd off n) ∧
    (∀ t ∈ progressTotals (download_to_path env fs url tmp sha size total off).2.2,
      t = total) := by
  revert hok
  unfold download_to_path
  cases env.http url with
  | sendErr m => intro hok; simp at hok
  | resp status stream =>
    cases hst : !(200 ≤ status && status < 300)
    · simp only [hst, Bool.false_eq_true, if_false]
      cases hcd : env.createDirFails tmp.dropLast
      · simp only [hcd, Bool.false_eq_true, if_false]
        cases hcf : env.createFileFails tmp
        · simp only [hcf, Bool.false_eq_true, if_false]
          rcases hsl : streamLoop env tmp total off stream 0
              ((fs.mkdirEff tmp.dropLast).set tmp (some (.file []))) 0 with ⟨r, fs3, evs⟩
          cases r with
          | error e => intro hok; simp at hok
          | ok dn =>
            intro hok
            dsimp only at hok ⊢
            have hinit : ((fs.mkdirEff tmp.dropLast).set tmp (some (.file []))).nodes tmp
                = some (.file []) := by simp [FSState.nodes_set]
            have hsl1 : (streamLoop env tmp total off stream 0
                ((fs.mkdirEff tmp.dropLast).set tmp (some (.file []))) 0).1 = .ok dn := by
              rw [hsl]
            obtain ⟨app, happ, hdnlen⟩ := by
              have h := streamLoop_ok_content env tmp total off stream 0
                ((fs.mkdirEff tmp.dropLast).set tmp (some (.file []))) 0 dn []
                (Nat.zero_le _) hinit hsl1
              rw [hsl] at h
              exact h
            have happ' : fs3.nodes tmp = some (.file app) := by simpa using happ
            obtain ⟨hn_dn, hlen⟩ := verifyDownloaded_ok env fs3 tmp sha size dn n _ app happ' hok
            have hn : n = size := by
              rw [hn_dn, hdnlen, hlen]
              unfold satAdd
              omega
            obtain ⟨hle0, hch, hlast⟩ := by
              have h := streamLoop_ok_vals env tmp total off stream 0
                ((fs.mkdirEff tmp.dropLast).set tmp (some (.file []))) 0 dn
                (Nat.zero_le _) hsl1
              rw [hsl] at h
              exact h
            have hoff0 : satAdd off 0 = off := satAdd_zero off hoff
            rw [hoff0] at hch hlast
            refine ⟨hn, ?_, ?_, ?_⟩
            · rw [verifyDownloaded_evs, progressVals_cons_get, progressVals_cons_mkdir]
              exact hch
            · rw [verifyDownloaded_evs, progressVals_cons_get, progressVals_cons_mkdir, hn_dn]
              exact hlast
            · rw [verifyDownloaded_evs]
              intro t ht
              rw [progressTotals_cons_get, progressTotals_cons_mkdir] at ht
              have h := streamLoop_totals env tmp total off stream 0
                ((fs.mkdirEff tmp.dropLast).set tmp (some (.file []))) 0
              rw [hsl] at h
              exact h t ht
        · simp only [hcf, eq_self_iff_true, if_true]
          intro hok
          simp at hok
      · simp only [hcd, eq_self_iff_true, if_true]
        intro hok
        simp at hok
    · simp only [hst, eq_self_iff_true, if_true]
      intro hok
      simp at hok

theorem processOne_ok (env : DlEnv) (fs : FSState) (p : PendingDownload)
    (total off n : Nat)
    (hoff : off ≤ 2 ^ 64 - 1) (hsize : p.expected_size ≤ 2 ^ 64 - 1)
    (hok : (processOne env fs p total off).1 = .ok n) :
    n = p.expected_size ∧
    List.Chain' (· ≤ ·) (off :: progressVals (processOne env fs p total off).2.2) ∧
    (off :: progressVals (processOne env fs p total off).2.2).getLast?
      = some (satAdd off n) ∧
    (∀ t ∈ progressTotals (processOne env fs p total off).2.2, t = total) := by
  unfold processOne at hok ⊢
  cases hlast : p.dest_path.getLast? with
  | none => rw [hlast] at hok; simp at hok
  | some name =>
    rw [hlast] at hok
    dsimp only at hok ⊢
    rcases hdl : download_to_path env fs p.download_url
        (p.dest_path.dropLast ++ [name ++ ".partial"]) p.expected_sha256
        p.expected_size total off with ⟨r, fsd, evd⟩
    rw [hdl] at hok
    cases r with
    | error e => simp at hok
    | ok dn =>
      dsimp only at hok
      have hfin := finalizeOne_ok_val env fsd (p.dest_path.dropLast ++ [name ++ ".partial"])
        p.dest_path dn n evd hok
      have hdl1 : (download_to_path env fs p.download_url
          (p.dest_path.dropLast ++ [name ++ ".partial"]) p.expected_sha256
          p.expected_size total off).1 = .ok dn := by rw [hdl]
      have hd := download_to_path_ok env fs p.download_url
        (p.dest_path.dropLast ++ [name ++ ".partial"]) p.expected_sha256
        p.expected_size total off dn hoff hsize hdl1
      rw [hdl] at hd
      obtain ⟨hdn, hch, hlast2, htot⟩ := hd
      refine ⟨hfin.trans hdn, ?_, ?_, ?_⟩
      · show List.Chain' (· ≤ ·) (off :: progressVals (finalizeOne env fsd
            (p.dest_path.dropLast ++ [name ++ ".partial"]) p.dest_path dn evd).2.2)
        rw [finalizeOne_evs, progressVals_append, progressVals_cons_mkdir, progressVals_nil,
          List.append_nil]
        exact hch
      · show (off :: progressVals (finalizeOne env fsd
            (p.dest_path.dropLast ++ [name ++ ".partial"]) p.dest_path dn evd).2.2).getLast?
          = some (satAdd off n)
        rw [finalizeOne_evs, progressVals_append, progressVals_cons_mkdir, progressVals_nil,
          List.append_nil, hfin]
        exact hlast2
      · show ∀ t ∈ progressTotals (finalizeOne env fsd
            (p.dest_path.dropLast ++ [name ++ ".partial"]) p.dest_path dn evd).2.2, t = total
        rw [finalizeOne_evs]
        intro t ht
        rw [progressTotals_append, progressTotals_cons_mkdir, progressTotals_nil,
          List.append_nil] at ht
        exact htot t ht

theorem download_all_go_ok (env : DlEnv) (total : Nat) (htot : total ≤ 2 ^ 64 - 1) :
    ∀ (pending : List PendingDownload) (fs : FSState) (off : Nat),
      (download_all_go env total pending fs off).1 = .ok () →
      off + (pending.map (fun p => p.expected_size)).sum = total →
      List.Chain' (· ≤ ·)
        (off :: progressVals (download_all_go env total pending fs off).2.2) ∧
      (off :: progressVals (download_all_go env total pending fs off).2.2).getLast?
        = some total ∧
      (∀ t ∈ progressTotals (download_all_go env total pending fs off).2.2, t = total) ∧
      ∃ pre, (download_all_go env total pending fs off).2.2
        = pre ++ [.progress total total] := by
  intro pending
  induction pending with
  | nil =>
    intro fs off hok hsum
    have hoff : off = total := by
      simp only [List.map_nil, List.sum_nil] at hsum
      omega
    simp only [download_all_go]
    refine ⟨?_, ?_, ?_, [], rfl⟩
    · rw [progressVals_cons_progress, progressVals_nil]
      exact List.chain'_pair.mpr (by omega)
    · rw [progressVals_cons_progress, progressVals_nil, List.getLast?_cons_cons,
        List.getLast?_singleton]
    · intro t ht
      rw [progressTotals_cons_progress, progressTotals_nil] at ht
      exact List.mem_singleton.mp ht
  | cons p rest ih =>
    intro fs off hok hsum
    simp only [List.map_cons, List.sum_cons] at hsum
    rw [download_all_go] at hok ⊢
    rcases hpo : processOne env fs p total off with ⟨r, fs1, evs⟩
    rw [hpo] at hok
    cases r with
    | error e => simp at hok
    | ok dn =>
      simp only [hpo]
      dsimp only at hok ⊢
      rcases hgo : download_all_go env total rest fs1 (satAdd off dn) with ⟨r2, fs2, evs2⟩
      rw [hgo] at hok
      dsimp only at hok ⊢
      have hoff : off ≤ 2 ^ 64 - 1 := by omega
      have hsz : p.expected_size ≤ 2 ^ 64 - 1 := by omega
      have hpo1 : (processOne env fs p total off).1 = .ok dn := by rw [hpo]
      have hp := processOne_ok env fs p total off dn hoff hsz hpo1
      rw [hpo] at hp
      obtain ⟨hdn, hch1, hlast1, htot1⟩ := hp
      have hsat : satAdd off dn = off + p.expected_size := by
        rw [hdn]
        unfold satAdd
        omega
      have hok2 : (download_all_go env total rest fs1 (satAdd off dn)).1 = .ok () := by
        rw [hgo]; exact hok
      have hsum2 : satAdd off dn + (rest.map (fun p => p.expected_size)).sum = total := by
        rw [hsat]; omega
      have hr := ih fs1 (satAdd off dn) hok2 hsum2
      rw [hgo] at hr
      obtain ⟨hch2, hlast2, htot2, pre2, hpre2⟩ := hr
      refine ⟨?_, ?_, ?_, evs ++ pre2, ?_⟩
      · rw [progressVals_append, ← List.cons_append]
        have hc2 := List.chain'_cons'.mp hch2
        refine List.chain'_append.mpr ⟨hch1, hc2.2, ?_⟩
        intro x hx y hy
        rw [hlast1] at hx
        simp only [Option.mem_def, Option.some.injEq] at hx
        subst hx
        exact hc2.1 y hy
      · rw [progressVals_append]
        cases hpv2 : progressVals evs2 with
        | nil =>
          rw [hpv2] at hlast2
          have hdt : satAdd off dn = total := by simpa using hlast2
          rw [List.append_nil, hlast1, hdt]
        | cons v vs =>
          rw [hpv2] at hlast2
          rw [List.getLast?_cons_cons] at hlast2
          rw [← List.cons_append,
            getLast_of_append (v :: vs) (List.cons_ne_nil v vs) (off :: progressVals evs)]
          exact hlast2
      · intro t ht
        rw [progressTotals_append, List.mem_append] at ht
        rcases ht with h | h
        · exact htot1 t h
        · exact htot2 t h
      · rw [List.append_assoc]
        exact congrArg (fun l => evs ++ l) hpre2

/-- C7: in every successful download campaign the bytesDownloaded values of
the emitted progress events are monotonically non-decreasing (each chunk
event carries the global offset plus the bytes streamed so far), every
progress event carries the one fixed campaign bytesTotal, and the trace ends
with a trailing progress event pinned to exactly bytesTotal immediately
before the done event.  The side conditions state that the present bytes
plus the worklist sizes equal bytesTotal and that bytesTotal fits in u64,
as arranged by the worklist construction of handle_download_start. -/
theorem claim_C7 (env : DlEnv) (fs : FSState) (pending : List PendingDownload)
    (total present : Nat)
    (hsum : present + (pending.map (fun p => p.expected_size)).sum = total)
    (htot : total ≤ 2 ^ 64 - 1)
    (hok : (download_all env fs pending total present).1 = .ok ()) :
    List.Chain' (· ≤ ·) (progressVals (run_campaign env fs pending total present).2) ∧
    (∀ t ∈ progressTotals (run_campaign env fs pending total present).2, t = total) ∧
    ∃ pre, (run_campaign env fs pending total present).2
      = pre ++ [.progress total total, .downloadDone] := by
  unfold download_all at hok
  unfold run_campaign download_all
  rcases hgo : download_all_go env total pending fs present with ⟨r, fs1, evs⟩
  rw [hgo] at hok
  dsimp only at hok ⊢
  cases r with
  | error e => simp at hok
  | ok u =>
    dsimp only
    have hgo1 : (download_all_go env total pending fs present).1 = .ok () := by rw [hgo]
    have h := download_all_go_ok env total htot pending fs present hgo1 hsum
    rw [hgo] at h
    obtain ⟨hch, hlast, htots, pre, hpre⟩ := h
    have hpre2 : evs = pre ++ [MEv.progress total total] := hpre
    refine ⟨?_, ?_, MEv.progress present total :: pre, ?_⟩
    · rw [progressVals_append, progressVals_done, List.append_nil, progressVals_cons_progress]
      exact hch
    · intro t ht
      rw [progressTotals_append, progressTotals_done, List.append_nil,
        progressTotals_cons_progress] at ht
      rcases List.mem_cons.mp ht with h1 | h1
      · exact h1
      · exact htots t h1
    · rw [hpre2]
      simp

/-- Witness for C7: the one-entry campaign that streams chunks of two bytes
and one byte into a three-byte model file succeeds, and its trace satisfies
the monotone-progress, fixed-total and trailing-pinned-progress properties
with bytesTotal three. -/
theorem claim_C7_witness :
    (0 + ([pendingOne].map (fun p => p.expected_size)).sum = 3 ∧
      3 ≤ 2 ^ 64 - 1 ∧
      (download_all dlOk fsEmpty [pendingOne] 3 0).1 = .ok ()) ∧
    List.Chain' (· ≤ ·) (progressVals (run_campaign dlOk fsEmpty [pendingOne] 3 0).2) ∧
    (∀ t ∈ progressTotals (run_campaign dlOk fsEmpty [pendingOne] 3 0).2, t = 3) ∧
    ∃ pre, (run_campaign dlOk fsEmpty [pendingOne] 3 0).2
      = pre ++ [.progress 3 3, .downloadDone] :=
  ⟨⟨rfl, by decide, rfl⟩,
    claim_C7 dlOk fsEmpty [pendingOne] 3 0 rfl (by decide) rfl⟩

/-! Helper lemmas for the temp-file and abort behaviour of a failing
campaign entry. -/

theorem mkdirEff_nodes_some (fs : FSState) (p q : List String) (n : FsNode)
    (h : fs.nodes q = some n) : (fs.mkdirEff p).nodes q = some n := by
  by_cases hqp : q = p
  · subst hqp
    unfold FSState.mkdirEff
    rw [h]
    exact h
  · rw [mkdirEff_nodes fs p q hqp]
    exact h

theorem finalizeOne_err_tmp (env : DlEnv) (fs1 : FSState) (tmp dest : List String)
    (dn : Nat) (evs : List MEv) (e : AudioModelsError) (c : List Nat)
    (htmp : fs1.nodes tmp = some (.file c))
    (hne : tmp ≠ dest)
    (herr : (finalizeOne env fs1 tmp dest dn evs).1 = .error e) :
    (finalizeOne env fs1 tmp dest dn evs).2.1.nodes tmp = some (.file c) := by
  unfold finalizeOne at herr ⊢
  dsimp only at herr ⊢
  have hmk : (fs1.mkdirEff dest.dropLast).nodes tmp = some (.file c) :=
    mkdirEff_nodes_some fs1 dest.dropLast tmp _ htmp
  cases hcd : env.createDirFails dest.dropLast
  · simp only [hcd, Bool.false_eq_true, if_false] at herr ⊢
    cases hnd : (fs1.mkdirEff dest.dropLast).nodes dest
    · simp only [hnd] at herr ⊢
      cases hrn : env.renameFails tmp dest
      · rw [renameStep_ok _ _ _ _ _ _ hrn] at herr
        simp at herr
      · rw [renameStep_fail _ _ _ _ _ _ hrn]
        exact hmk
    · cases hrm : env.removeFails dest
      · simp only [hnd, hrm, Bool.false_eq_true, if_false] at herr ⊢
        cases hrn : env.renameFails tmp dest
        · rw [renameStep_ok _ _ _ _ _ _ hrn] at herr
          simp at herr
        · rw [renameStep_fail _ _ _ _ _ _ hrn]
          show ((fs1.mkdirEff dest.dropLast).set dest none).nodes tmp = some (.file c)
          rw [FSState.nodes_set, if_neg hne]
          exact hmk
      · simp only [hnd, hrm, eq_self_iff_true, if_true] at herr ⊢
        exact hmk
  · simp only [hcd, eq_self_iff_true, if_true] at herr ⊢
    exact htmp

theorem download_to_path_ok_tmp (env : DlEnv) (fs : FSState) (url : String)
    (tmp : List String) (sha : String) (size total off dn : Nat)
    (hok : (download_to_path env fs url tmp sha size total off).1 = .ok dn) :
    ∃ c : List Nat, (download_to_path env fs url tmp sha size total off).2.1.nodes tmp
      = some (.file c) := by
  revert hok
  unfold download_to_path
  cases env.http url with
  | sendErr m => intro hok; simp at hok
  | resp status stream =>
    cases hst : !(200 ≤ status && status < 300)
    · simp only [hst, Bool.false_eq_true, if_false]
      cases hcd : env.createDirFails tmp.dropLast
      · simp only [hcd, Bool.false_eq_true, if_false]
        cases hcf : env.createFileFails tmp
        · simp only [hcf, Bool.false_eq_true, if_false]
          rcases hsl : streamLoop env tmp total off stream 0
              ((fs.mkdirEff tmp.dropLast).set tmp (some (.file []))) 0 with ⟨r, fs3, evs⟩
          cases r with
          | error e => intro hok; simp at hok
          | ok dn2 =>
            intro hok
            dsimp only at hok ⊢
            have hinit : ((fs.mkdirEff tmp.dropLast).set tmp (some (.file []))).nodes tmp
                = some (.file []) := by simp [FSState.nodes_set]
            have hsl1 : (streamLoop env tmp total off stream 0
                ((fs.mkdirEff tmp.dropLast).set tmp (some (.file []))) 0).1 = .ok dn2 := by
              rw [hsl]
            obtain ⟨app, happ, hdnlen⟩ := by
              have h := streamLoop_ok_content env tmp total off stream 0
                ((fs.mkdirEff tmp.dropLast).set tmp (some (.file []))) 0 dn2 []
                (Nat.zero_le _) hinit hsl1
              rw [hsl] at h
              exact h
            refine ⟨app, ?_⟩
            rw [verifyDownloaded_fs]
            simpa using happ
        · simp only [hcf, eq_self_iff_true, if_true]
          intro hok
          simp at hok
      · simp only [hcd, eq_self_iff_true, if_true]
        intro hok
        simp at hok
    · simp only [hst, eq_self_iff_true, if_true]
      intro hok
      simp at hok

theorem processOne_finalize_eq (env : DlEnv) (fs : FSState) (p : PendingDownload)
    (total off : Nat) (name : String) (dn : Nat) (fs1 : FSState) (evs : List MEv)
    (hlast : p.dest_path.getLast? = some name)
    (hdl : download_to_path env fs p.download_url
      (p.dest_path.dropLast ++ [name ++ ".partial"]) p.expected_sha256
      p.expected_size total off = (.ok dn, fs1, evs)) :
    processOne env fs p total off =
      finalizeOne env fs1 (p.dest_path.dropLast ++ [name ++ ".partial"])
        p.dest_path dn evs := by
  unfold processOne
  rw [hlast]
  dsimp only
  rw [hdl]

theorem processOne_keep_partial (env : DlEnv) (fs : FSState) (p : PendingDownload)
    (total off : Nat) (name : String) (dn : Nat) (fs1 : FSState) (evs : List MEv)
    (e : AudioModelsError)
    (hlast : p.dest_path.getLast? = some name)
    (hdl : download_to_path env fs p.download_url
      (p.dest_path.dropLast ++ [name ++ ".partial"]) p.expected_sha256
      p.expected_size total off = (.ok dn, fs1, evs))
    (herr : (processOne env fs p total off).1 = .error e) :
    ∃ c, (processOne env fs p total off).2.1.nodes
      (p.dest_path.dropLast ++ [name ++ ".partial"]) = some (.file c) := by
  have hdest : p.dest_path.dropLast ++ [name] = p.dest_path :=
    dropLast_append_getLast_eq _ _ hlast
  have htmp_ne : (p.dest_path.dropLast ++ [name ++ ".partial"]) ≠ p.dest_path := by
    intro h
    have h2 := List.append_cancel_left (h.trans hdest.symm)
    simp at h2
    exact append_partial_ne name h2
  obtain ⟨c, hc⟩ := by
    have h := download_to_path_ok_tmp env fs p.download_url
      (p.dest_path.dropLast ++ [name ++ ".partial"]) p.expected_sha256
      p.expected_size total off dn (by rw [hdl])
    rw [hdl] at h
    exact h
  rw [processOne_finalize_eq env fs p total off name dn fs1 evs hlast hdl] at herr ⊢
  exact ⟨c, finalizeOne_err_tmp env fs1 _ p.dest_path dn evs e c hc htmp_ne herr⟩

theorem download_all_go_abort (env : DlEnv) (total : Nat) (p : PendingDownload)
    (rest : List PendingDownload) (fs : FSState) (off : Nat) (e : AudioModelsError)
    (herr : (processOne env fs p total off).1 = .error e) :
    download_all_go env total (p :: rest) fs off =
      (.error e, (processOne env fs p total off).2.1,
        (processOne env fs p total off).2.2) := by
  rw [download_all_go]
  rcases hpo : processOne env fs p total off with ⟨r, fs1, evs⟩
  rw [hpo] at herr
  dsimp only at herr
  subst herr
  rfl

/-- Claim C1 (amended): when a stage of the per-file transfer or
verification (HTTP request or stream, temp-file setup, chunk write, flush,
stat, size verification, checksum verification) fails, the campaign deletes
that entry's .partial temp file (provided the deletion itself succeeds) and
aborts; when one of the finalization steps (destination directory creation,
removal of the pre-existing destination, or the rename into place) fails,
the campaign aborts with the .partial file left behind on disk, still
holding downloaded bytes; a failing entry ends the campaign on the spot:
the worklist loop's result, filesystem and event trace are exactly those of
the failing entry, independent of the remaining worklist, which is never
attempted, so in particular the requested URLs form a prefix of the
worklist URLs; and the failing entry's destination path holds either its
prior content or nothing, never a partial or corrupt file. -/
theorem claim_C1_amended :
    (∀ (env : DlEnv) (fs : FSState) (p : PendingDownload) (total off : Nat)
        (name : String) (e : AudioModelsError) (fs1 : FSState) (evs : List MEv),
      p.dest_path.getLast? = some name →
      download_to_path env fs p.download_url
        (p.dest_path.dropLast ++ [name ++ ".partial"]) p.expected_sha256
        p.expected_size total off = (.error e, fs1, evs) →
      env.removeFails (p.dest_path.dropLast ++ [name ++ ".partial"]) = false →
      processOne env fs p total off =
        (.error e, fs1.set (p.dest_path.dropLast ++ [name ++ ".partial"]) none, evs))
  ∧ (∀ (env : DlEnv) (fs : FSState) (p : PendingDownload) (total off : Nat)
        (name : String) (dn : Nat) (fs1 : FSState) (evs : List MEv)
        (e : AudioModelsError),
      p.dest_path.getLast? = some name →
      download_to_path env fs p.download_url
        (p.dest_path.dropLast ++ [name ++ ".partial"]) p.expected_sha256
        p.expected_size total off = (.ok dn, fs1, evs) →
      (processOne env fs p total off).1 = .error e →
      ∃ c, (processOne env fs p total off).2.1.nodes
        (p.dest_path.dropLast ++ [name ++ ".partial"]) = some (.file c))
  ∧ (∀ (env : DlEnv) (fs : FSState) (p : PendingDownload) (total off : Nat)
        (e : AudioModelsError),
      (processOne env fs p total off).1 = .error e →
      (processOne env fs p total off).2.1.nodes p.dest_path = fs.nodes p.dest_path ∨
      (processOne env fs p total off).2.1.nodes p.dest_path = none)
  ∧ (∀ (env : DlEnv) (total : Nat) (p : PendingDownload)
        (rest : List PendingDownload) (fs : FSState) (off : Nat)
        (e : AudioModelsError),
      (processOne env fs p total off).1 = .error e →
      download_all_go env total (p :: rest) fs off =
        (.error e, (processOne env fs p total off).2.1,
          (processOne env fs p total off).2.2))
  ∧ (∀ (env : DlEnv) (fs : FSState) (pending : List PendingDownload)
        (total present : Nat) (e : AudioModelsError),
      (download_all env fs pending total present).1 = .error e →
      ∃ n, httpReqs (download_all env fs pending total present).2.2 =
        (pending.map (fun p => p.download_url)).take n) := by
  refine ⟨processOne_inner_cleanup, processOne_keep_partial, processOne_dest,
    download_all_go_abort, ?_⟩
  intro env fs pending total present e herr
  obtain ⟨n, hn⟩ := download_all_go_http env total pending fs present
  refine ⟨n, ?_⟩
  unfold download_all
  rcases hgo : download_all_go env total pending fs present with ⟨r, fs1, evs⟩
  rw [hgo] at hn
  dsimp only
  rw [httpReqs_cons_progress]
  exact hn

theorem claim_C1_amended_witness :
    processOne dlHttpFail fsEmpty pendingOne 3 0 =
      (.error ⟨"http_failed", "Failed to start HTTP download"⟩,
        fsEmpty.set (pendingOne.dest_path.dropLast ++ ["model.bin" ++ ".partial"]) none,
        [.httpGetA "https://host/model.bin"])
  ∧ (∃ c, (processOne dlRenameFail fsEmpty pendingOne 3 0).2.1.nodes
        (pendingOne.dest_path.dropLast ++ ["model.bin" ++ ".partial"]) = some (.file c))
  ∧ ((processOne dlRenameFail fsEmpty pendingOne 3 0).2.1.nodes pendingOne.dest_path =
        fsEmpty.nodes pendingOne.dest_path ∨
      (processOne dlRenameFail fsEmpty pendingOne 3 0).2.1.nodes pendingOne.dest_path = none)
  ∧ download_all_go dlHttpFail 3 [pendingOne, pendingOne] fsEmpty 0 =
      (.error ⟨"http_failed", "Failed to start HTTP download"⟩,
        (processOne dlHttpFail fsEmpty pendingOne 3 0).2.1,
        (processOne dlHttpFail fsEmpty pendingOne 3 0).2.2)
  ∧ (∃ n, httpReqs (download_all dlRenameFail fsEmpty [pendingOne] 3 0).2.2 =
      ([pendingOne].map (fun p => p.download_url)).take n) :=
  ⟨claim_C1_amended.1 dlHttpFail fsEmpty pendingOne 3 0 "model.bin"
      ⟨"http_failed", "Failed to start HTTP download"⟩ fsEmpty
      [.httpGetA "https://host/model.bin"] rfl rfl rfl,
   claim_C1_amended.2.1 dlRenameFail fsEmpty pendingOne 3 0 "model.bin" 3
      (download_to_path dlRenameFail fsEmpty pendingOne.download_url
        (pendingOne.dest_path.dropLast ++ ["model.bin" ++ ".partial"])
        pendingOne.expected_sha256 pendingOne.expected_size 3 0).2.1
      (download_to_path dlRenameFail fsEmpty pendingOne.download_url
        (pendingOne.dest_path.dropLast ++ ["model.bin" ++ ".partial"])
        pendingOne.expected_sha256 pendingOne.expected_size 3 0).2.2
      ⟨"io_failed", "Failed to move downloaded file into place"⟩ rfl rfl rfl,
   claim_C1_amended.2.2.1 dlRenameFail fsEmpty pendingOne 3 0
      ⟨"io_failed", "Failed to move downloaded file into place"⟩ rfl,
   claim_C1_amended.2.2.2.1 dlHttpFail 3 pendingOne [pendingOne] fsEmpty 0
      ⟨"http_failed", "Failed to start HTTP download"⟩ rfl,
   claim_C1_amended.2.2.2.2 dlRenameFail fsEmpty [pendingOne] 3 0
      ⟨"io_failed", "Failed to move downloaded file into place"⟩ rfl⟩

end ValeDesk
